import Mathlib

/-!
Verification of the monitoring core of the `quectel-rm520n-thermal` package
(daemon.c, temperature.c, serial.c, system.c) against its specification.

The C sources are shallowly embedded: C strings become `List Char` (the
terminating NUL is represented by the end of the list), out-parameters plus an
`int` status code become `Option` results, and the stateful monitoring loop
becomes an explicit state-transition function over a `LoopState` record driven
by per-tick inputs (the results of the `open`/`write`/`read` system calls,
and a snapshot of the relevant sysfs entries).
-/

namespace QuectelRM520N

/-! ## Character classes (ctype.h, as used by temperature.c and serial.c) -/

/-- `isspace` from ctype.h for the ASCII characters that actually occur in
modem responses. -/
def isSpaceC (c : Char) : Bool :=
  c = ' ' || c = '\t' || c = '\n' || c = '\x0b' || c = '\x0c' || c = '\r'

/-- `isdigit` from ctype.h. -/
def isDigitC (c : Char) : Bool :=
  '0' ≤ c && c ≤ '9'

/-! ## C string-search primitives (`strstr`, `strncmp`-style prefix test) -/

/-- Boolean prefix test on char lists: `isPrefixC pat s` is true iff `pat`
is a prefix of `s`.  This is the building block for `strstr` and for the
`strncmp(line_start, "+QTEMP:", 7)` check. -/
def isPrefixC : List Char → List Char → Bool
  | [], _ => true
  | _ :: _, [] => false
  | p :: ps, h :: hs => p = h && isPrefixC ps hs

/-- `strstr`, returning the split at the first occurrence: `some (rpre, fm)`
where `rpre` is the reversed list of characters strictly before the match and
`fm` is the suffix starting at the match.  `none` when the pattern does not
occur. -/
def findPat : List Char → List Char → List Char → Option (List Char × List Char)
  | rpre, [], pat => if isPrefixC pat [] then some (rpre, []) else none
  | rpre, c :: t, pat =>
    if isPrefixC pat (c :: t) then some (rpre, c :: t)
    else findPat (c :: rpre) t pat

/-- `strstr(hay, pat) != NULL`. -/
def containsSub (hay pat : List Char) : Bool :=
  (findPat [] hay pat).isSome

/-! ## Temperature constants (include/common.h) -/

/-- `TEMP_ABSOLUTE_MIN` (m°C), common.h line 72. -/
def TEMP_ABSOLUTE_MIN : Int := -40000

/-- `TEMP_ABSOLUTE_MAX` (m°C), common.h line 73. -/
def TEMP_ABSOLUTE_MAX : Int := 125000

/-- `TEMP_VALID_MIN` (°C), temperature.c line 27: `TEMP_ABSOLUTE_MIN / 1000`. -/
def TEMP_VALID_MIN : Int := TEMP_ABSOLUTE_MIN / 1000

/-- `TEMP_VALID_MAX` (°C), temperature.c line 28: `TEMP_ABSOLUTE_MAX / 1000`. -/
def TEMP_VALID_MAX : Int := TEMP_ABSOLUTE_MAX / 1000

/-- `SERIAL_MAX_RECONNECT_ATTEMPTS`, common.h line 94. -/
def SERIAL_MAX_RECONNECT_ATTEMPTS : Nat := 5

/-- `SERIAL_INITIAL_RECONNECT_DELAY` (seconds), common.h line 95. -/
def SERIAL_INITIAL_RECONNECT_DELAY : Nat := 10

/-- `SERIAL_MAX_RECONNECT_DELAY` (seconds), common.h line 96. -/
def SERIAL_MAX_RECONNECT_DELAY : Nat := 60

/-- `SERIAL_MAX_FAILED_CYCLES`, common.h line 97, documented there as
"Exit after N reconnect cycles without success".  Note: this constant is
never referenced by any `.c` file of the repository. -/
def SERIAL_MAX_FAILED_CYCLES : Nat := 3

/-- `STATS_LOG_INTERVAL`, common.h line 100. -/
def STATS_LOG_INTERVAL : Nat := 100

/-! ## strtol (base 10), as used by extract_single_temperature

`strtol` skips leading whitespace, consumes an optional sign and a run of
digits.  `extract_single_temperature` treats "no digits consumed"
(`endptr == temp_ptr`) and values outside `[INT_MIN, INT_MAX]` as failure,
so the model folds those checks into an `Option Int`. -/

/-- Value of a run of decimal digits (the digits already isolated). -/
def digitsVal (ds : List Char) : Int :=
  ds.foldl (fun a c => a * 10 + ((c.toNat : Int) - 48)) 0

/-- Parse an unsigned digit run at the head of `l`; `none` when no digit is
consumed (C: `endptr == nptr`). -/
def parseDigits (l : List Char) : Option Int :=
  let ds := l.takeWhile isDigitC
  if ds.isEmpty then none else some (digitsVal ds)

/-- `strtol(l, &endptr, 10)` combined with the error checks of
temperature.c lines 96-103 (`errno`, `endptr == temp_ptr`, int range). -/
def strtolInt (l : List Char) : Option Int :=
  let l1 := l.dropWhile isSpaceC
  let r :=
    match l1 with
    | [] => none
    | c :: t =>
      if c = '-' then (parseDigits t).map (fun n => -n)
      else if c = '+' then parseDigits t
      else parseDigits (c :: t)
  r.bind fun v =>
    if v < -2147483648 || v > 2147483647 then none else some v

/-! ## extract_single_temperature (temperature.c lines 46-112) -/

/-- The fixed response-type marker `"+QTEMP:"`. -/
def qtempMarker : List Char := "+QTEMP:".toList

/-- The backwards scan of temperature.c lines 66-72: from the match position,
walk back to the most recent line break (or the start of the buffer) and
return the text from that line start onward.  `rpre` is the reversed text
before the match, `fm` the text from the match position. -/
def lineFrom (rpre fm : List Char) : List Char :=
  match fm with
  | [] => (rpre.takeWhile (fun c => !(c = '\n' || c = '\r'))).reverse
  | h :: _ =>
    if h = '\n' || h = '\r' then fm.drop 1
    else (rpre.takeWhile (fun c => !(c = '\n' || c = '\r'))).reverse ++ fm

/-- temperature.c line 89-91: skip a single opening quote if present. -/
def skipQuote : List Char → List Char
  | '"' :: t => t
  | l => l

/-- `extract_single_temperature(response, pattern, strlen(pattern), &v)`,
temperature.c lines 46-112, with the non-NULL-arguments precondition of its
only caller baked in.  Returns `some v` exactly when the C function returns 1
and stores `v`. -/
def extract_single_temperature (response pat : List Char) : Option Int :=
  match findPat [] response pat with
  | none => none
  | some (rpre, fm) =>
    if isPrefixC qtempMarker (lineFrom rpre fm) then
      let rest := skipQuote ((fm.drop pat.length).dropWhile (fun c => isSpaceC c || c = ','))
      match rest with
      | [] => none
      | c :: _ =>
        if c ≠ '"' && (isDigitC c || c = '-') then strtolInt rest else none
    else none

/-! ## extract_temp_values (temperature.c lines 139-224) -/

/-- Build the search pattern `"\"%s\""` of temperature.c line 174. -/
def mkPattern (prefixStr : List Char) : List Char :=
  '"' :: prefixStr ++ ['"']

/-- `extract_temp_values(response, &m, &a, &p, modem_prefix, ap_prefix,
pa_prefix)` for non-NULL arguments (as called from daemon.c line 313).
All three output slots are initialised to 0 (lines 145-147); a slot is
overwritten only when its pattern extraction succeeds; the whole parse fails
(`none`) when the response lacks the `+QTEMP:` marker, contains `ERROR`,
contains `OK` without the substring `modem`, or any resulting slot is outside
`[TEMP_VALID_MIN, TEMP_VALID_MAX]`. -/
def extract_temp_values (response : List Char)
    (modemPrefix apPrefix paPrefix : List Char) : Option (Int × Int × Int) :=
  if !containsSub response qtempMarker then none
  else if containsSub response "ERROR".toList then none
  else if containsSub response "OK".toList && !containsSub response "modem".toList then none
  else
    let m := (extract_single_temperature response (mkPattern modemPrefix)).getD 0
    let a := (extract_single_temperature response (mkPattern apPrefix)).getD 0
    let p := (extract_single_temperature response (mkPattern paPrefix)).getD 0
    if m < TEMP_VALID_MIN || m > TEMP_VALID_MAX then none
    else if a < TEMP_VALID_MIN || a > TEMP_VALID_MAX then none
    else if p < TEMP_VALID_MIN || p > TEMP_VALID_MAX then none
    else some (m, a, p)

/-- Default `temp_modem_prefix` (config.c line 82). -/
def labM : List Char := "modem-ambient-usr".toList

/-- Default `temp_ap_prefix` (config.c line 83). -/
def labA : List Char := "cpuss-0-usr".toList

/-- Default `temp_pa_prefix` (config.c line 84). -/
def labP : List Char := "modem-lte-sub6-pa1".toList

/-! ## Temperature selection (daemon.c lines 312-329) -/

/-- daemon.c lines 316-318: `best_temp = modem_temp; if (ap_temp > best_temp)
...; if (pa_temp > best_temp) ...`. -/
def best_temp (m a p : Int) : Int :=
  let b := m
  let b := if a > b then a else b
  if p > b then p else b

/-- daemon.c lines 320-329: range check against
`TEMP_ABSOLUTE_MIN/1000 .. TEMP_ABSOLUTE_MAX/1000` then conversion to
milli-degrees; `none` means the `continue` path (counted as a parse error,
nothing written). -/
def select_temp_mdeg (m a p : Int) : Option Int :=
  let b := best_temp m a p
  if b < TEMP_ABSOLUTE_MIN / 1000 || b > TEMP_ABSOLUTE_MAX / 1000 then none
  else some (b * 1000)

/-! ## Serial transport (serial.c)

`read_modem_response` is driven by a script of `read(2)` results.  The wall
clock only matters in the `n <= 0` branches, so each such event carries the
value `time(NULL) - start_time` observed there. -/

/-- One `read(2)` result inside the `read_modem_response` loop. -/
inductive ReadEv
  /-- `n > 0`: the bytes delivered (the kernel delivers at most the free
  space `buflen - total - 1` that was requested). -/
  | data (s : List Char)
  /-- `n < 0` with `errno` EAGAIN / EWOULDBLOCK, at `t` seconds after start. -/
  | again (t : Nat)
  /-- `n == 0`, at `t` seconds after start. -/
  | eof (t : Nat)
  /-- `n < 0` with any other `errno` ("real error"). -/
  | rerr
deriving DecidableEq, Repr

/-- `AT_TIMEOUT_SEC`, serial.c line 23. -/
def AT_TIMEOUT_SEC : Nat := 5

/-- serial.c lines 159-165: terminator detection on the accumulated buffer. -/
def hasTerminator (buf : List Char) : Bool :=
  containsSub buf "\nOK".toList || containsSub buf "\rOK".toList ||
  containsSub buf "\nERROR".toList || containsSub buf "\rERROR".toList

/-- The `while` loop of `read_modem_response` (serial.c lines 151-187), with
the accumulated count `total` and buffer `buf` made explicit.  Returns
`some (return value, final buffer)`; `none` when the event script ends while
the loop would keep reading (the C loop blocks forever in that case, so every
terminating execution corresponds to a sufficient script). -/
def rmrLoop (buflen : Nat) : List ReadEv → Nat → List Char → Option (Int × List Char)
  | [], total, buf =>
    if total ≥ buflen - 1 then some ((total : Int), buf) else none
  | ev :: rest, total, buf =>
    if total ≥ buflen - 1 then some ((total : Int), buf)
    else
      match ev with
      | .data s =>
        let chunk := s.take (buflen - total - 1)
        let buf1 := buf ++ chunk
        if hasTerminator buf1 then some (((total + chunk.length : Nat) : Int), buf1)
        else rmrLoop buflen rest (total + chunk.length) buf1
      | .again t =>
        if t ≥ AT_TIMEOUT_SEC then some ((total : Int), buf)
        else rmrLoop buflen rest total buf
      | .eof t =>
        if t ≥ AT_TIMEOUT_SEC then some ((total : Int), buf)
        else rmrLoop buflen rest total buf
      | .rerr => some (-1, buf)

/-- `read_modem_response(fd, buf, buflen)` (serial.c lines 134-194).  The
parameter validation of `validate_serial_params` (fd ≥ 0, non-NULL buffer,
64 ≤ buflen ≤ 4096) yields -1; on timeout the function sets `errno` but
still returns `total`. -/
def read_modem_response (fd : Int) (buflen : Nat) (evs : List ReadEv) :
    Option (Int × List Char) :=
  if fd < 0 || buflen < 64 || buflen > 4096 then some (-1, [])
  else rmrLoop buflen evs 0 []

/-- `send_at_command(fd, command, response, response_len)` (serial.c lines
204-235): parameter validation, input flush (failure only logs), two
`write(2)` calls (command text, then `"\r\n"`) whose success is given by
`write1Ok`/`write2Ok`, then `read_modem_response`. -/
def send_at_command (fd : Int) (buflen : Nat) (write1Ok write2Ok : Bool)
    (evs : List ReadEv) : Option (Int × List Char) :=
  if fd < 0 || buflen < 64 || buflen > 4096 then some (-1, [])
  else if !write1Ok then some (-1, [])
  else if !write2Ok then some (-1, [])
  else read_modem_response fd buflen evs

/-! ## Sink discovery and writing (daemon.c lines 343-474, system.c) -/

/-- One `/sys/devices/virtual/thermal` directory entry as the daemon sees it:
the entry name, the result of reading its `type` file (`none` when `fopen`
or `fgets` fails), and whether its `temp` file passes `access(W_OK)` and
opens for writing. -/
structure TZEntry where
  name : List Char
  typeRead : Option (List Char)
  tempAccessW : Bool
  tempOpenOk : Bool
deriving DecidableEq, Repr

/-- Snapshot of the filesystem facts one tick of the daemon observes while
writing sinks: for each fixed-path sink, whether `access(path, W_OK)`
succeeds and whether `fopen(path, "w")` succeeds, plus the thermal directory
listing. -/
structure SinkFs where
  primaryAccessW : Bool
  primaryOpenOk : Bool
  hwmonAccessW : Bool
  hwmonOpenOk : Bool
  platformAccessW : Bool
  platformOpenOk : Bool
  sensorAccessW : Bool
  sensorOpenOk : Bool
  thermalZones : List TZEntry
deriving DecidableEq, Repr

/-- daemon.c lines 433-436: the blocklist check on a thermal zone type. -/
def blockedType (t : List Char) : Bool :=
  containsSub t "cpu".toList || containsSub t "gpu".toList ||
  containsSub t "soc".toList || containsSub t "board".toList

/-- daemon.c lines 444-448: the exact-match allow-list of modem zone types. -/
def allowedType (t : List Char) : Bool :=
  t = "quectel_rm520n".toList || t = "modem_thermal".toList ||
  t = "modem-thermal".toList || t = "quectel-thermal".toList ||
  t = "rm520n-thermal".toList

/-- Observable actions of one loop iteration. -/
inductive Action
  /-- `sleep(reconnect_delay)` in the backoff branch (daemon.c line 289). -/
  | backoffSleep (secs : Nat)
  /-- The `logging_error("Failed to initialize serial port after %d attempts,
  continuing with error reporting")` branch (daemon.c lines 296-297). -/
  | failedCycleReport
  /-- `fprintf` to `/sys/kernel/quectel_rm520n_thermal/temp` (line 347). -/
  | writePrimary (v : Int)
  /-- `fprintf` to the cached hwmon `temp1_input` path (line 361). -/
  | writeHwmon (path : List Char) (v : Int)
  /-- `fprintf` to `/sys/devices/platform/quectel_rm520n_temp/cur_temp`. -/
  | writePlatform (v : Int)
  /-- `fprintf` to `soc:quectel-temp-sensor/cur_temp` (line 395). -/
  | writeSensor (v : Int)
  /-- `fprintf` to `/sys/devices/virtual/thermal/<name>/temp` (line 457). -/
  | writeThermal (name : List Char) (v : Int)
  /-- The periodic statistics log line (daemon.c lines 496-504). -/
  | statsLog
  /-- `sleep(config.interval)` at the bottom of the loop (line 507). -/
  | intervalSleep
deriving DecidableEq, Repr

/-- The thermal-zone scan of daemon.c lines 406-474: for each directory entry
named `thermal_zone*`, read its type; skip unreadable types, skip blocklisted
types, and on the first allow-listed type attempt the write (guarded by
`access(W_OK)`) and stop scanning (`break`). -/
def thermalScan (zones : List TZEntry) (v : Int) : List Action :=
  match zones with
  | [] => []
  | z :: rest =>
    if !isPrefixC "thermal_zone".toList z.name then thermalScan rest v
    else
      match z.typeRead with
      | none => thermalScan rest v
      | some t =>
        if blockedType t then thermalScan rest v
        else if allowedType t then
          if z.tempAccessW && z.tempOpenOk then [.writeThermal z.name v] else []
        else thermalScan rest v

/-- The sink fan-out of daemon.c lines 343-474 for the value `v` (m°C):
primary sysfs path, cached hwmon path, the two fixed platform paths and the
thermal-zone scan, each guarded by its own `access(W_OK)` check and `fopen`.
(The `snprintf` truncation guards never fire for these fixed-length paths.) -/
def write_sinks (hwmonAvailable : Bool) (hwmonPath : List Char) (fs : SinkFs)
    (v : Int) : List Action :=
  (if fs.primaryAccessW then
    (if fs.primaryOpenOk then [.writePrimary v] else []) else [])
  ++ (if hwmonAvailable && fs.hwmonAccessW then
    (if fs.hwmonOpenOk then [.writeHwmon hwmonPath v] else []) else [])
  ++ (if fs.platformAccessW then
    (if fs.platformOpenOk then [.writePlatform v] else []) else [])
  ++ (if fs.sensorAccessW then
    (if fs.sensorOpenOk then [.writeSensor v] else []) else [])
  ++ thermalScan fs.thermalZones v

/-! ## The monitoring loop (daemon.c lines 196-519)

State and per-tick transition of the main daemon loop.  The UCI-reload block
(lines 219-278) only swaps the configuration snapshot and is orthogonal to
every claim, so the configuration (label prefixes) is a fixed parameter here.
`hwmon_available`/`hwmon_path` are computed once before the loop (lines
201-208) and are plain locals never reassigned inside the loop; they are
carried in the state to make that explicit. -/

/-- The daemon statistics counters (daemon.c lines 43-49). -/
structure DaemonStats where
  serial_errors : Nat
  at_command_errors : Nat
  parse_errors : Nat
  successful_reads : Nat
  total_iterations : Nat
deriving DecidableEq, Repr

/-- The loop-carried state of `daemon_mode`. -/
structure LoopState where
  /-- `g_serial_fd >= 0`. -/
  serialOpen : Bool
  /-- `serial_reconnect_attempts`. -/
  attempts : Nat
  /-- `reconnect_delay` (seconds). -/
  delay : Nat
  /-- `hwmon_available` (computed once before the loop). -/
  hwmonAvailable : Bool
  /-- `hwmon_path` (computed once before the loop). -/
  hwmonPath : List Char
  stats : DaemonStats
deriving DecidableEq, Repr

/-- Result of `send_at_command` as the daemon sees it (`> 0` or not). -/
inductive QueryIn
  /-- `send_at_command(...) <= 0`. -/
  | fail
  /-- `send_at_command(...) > 0` with this response buffer. -/
  | ok (resp : List Char)
deriving DecidableEq, Repr

/-- The per-tick nondeterministic inputs: the result `init_serial_port` would
return if attempted, and the query outcome if a query is issued. -/
structure TickInput where
  openOk : Bool
  q : QueryIn
deriving DecidableEq, Repr

/-- The statistics log of daemon.c lines 496-504 (every
`STATS_LOG_INTERVAL` iterations). -/
def statsTail (s : LoopState) : List Action :=
  (if s.stats.total_iterations % STATS_LOG_INTERVAL = 0 then [.statsLog] else [])
  ++ [.intervalSleep]

/-- One iteration of the `while (shutdown_flag && !(*shutdown_flag))` loop of
`daemon_mode` (daemon.c lines 211-508), minus the UCI-reload block.  Returns
the successor state and the observable actions of the iteration.  Faithful
branch structure:
* port closed and open fails: backoff retry (`continue`) while
  `serial_reconnect_attempts < SERIAL_MAX_RECONNECT_ATTEMPTS`, otherwise the
  error-report branch that falls through to the interval sleep;
* port (now) open: issue the query; on failure count it and force a reopen
  after more than 3 consecutive failures; on success parse, select and write
  the sinks (an out-of-range best temperature hits a `continue`). -/
def daemonTick (modemPrefix apPrefix paPrefix : List Char) (fs : SinkFs)
    (inp : TickInput) (s : LoopState) : LoopState × List Action :=
  let s1 := { s with stats := { s.stats with
                total_iterations := s.stats.total_iterations + 1 } }
  if !s.serialOpen && !inp.openOk then
    let s2 := { s1 with stats := { s1.stats with
                  serial_errors := s1.stats.serial_errors + 1 } }
    if s2.attempts < SERIAL_MAX_RECONNECT_ATTEMPTS then
      ({ s2 with
          attempts := s2.attempts + 1,
          delay := min (s2.delay * 2) SERIAL_MAX_RECONNECT_DELAY },
       [.backoffSleep s2.delay])
    else
      (s2, [.failedCycleReport] ++ statsTail s2)
  else
    let s2 := if s.serialOpen then s1
      else { s1 with serialOpen := true, attempts := 0,
                     delay := SERIAL_INITIAL_RECONNECT_DELAY }
    match inp.q with
    | .fail =>
      let s3 := { s2 with
        stats := { s2.stats with
          at_command_errors := s2.stats.at_command_errors + 1 },
        attempts := s2.attempts + 1 }
      let s4 := if s3.attempts > 3 then
          { s3 with serialOpen := false, attempts := 0 } else s3
      (s4, statsTail s4)
    | .ok resp =>
      match extract_temp_values resp modemPrefix apPrefix paPrefix with
      | none =>
        let s3 := { s2 with stats := { s2.stats with
                      parse_errors := s2.stats.parse_errors + 1 } }
        (s3, statsTail s3)
      | some (m, a, p) =>
        match select_temp_mdeg m a p with
        | none =>
          let s3 := { s2 with stats := { s2.stats with
                        parse_errors := s2.stats.parse_errors + 1 } }
          (s3, [])
        | some mdeg =>
          let s3 := { s2 with stats := { s2.stats with
                        successful_reads := s2.stats.successful_reads + 1 } }
          (s3, write_sinks s3.hwmonAvailable s3.hwmonPath fs mdeg ++ statsTail s3)

/-- The state with which `daemon_mode` enters the loop (daemon.c lines
197-208), given the pre-loop hwmon discovery result. -/
def initLoopState (hwmonAvailable : Bool) (hwmonPath : List Char) : LoopState :=
  { serialOpen := false
    attempts := 0
    delay := SERIAL_INITIAL_RECONNECT_DELAY
    hwmonAvailable := hwmonAvailable
    hwmonPath := hwmonPath
    stats := ⟨0, 0, 0, 0, 0⟩ }

/-- Run `n` consecutive iterations in which the serial port cannot be opened
(`init_serial_port` fails every time), collecting the actions of each
iteration in order. -/
def runOpenFail (pm pa pp : List Char) (fs : SinkFs) :
    Nat → LoopState → LoopState × List (List Action)
  | 0, s => (s, [])
  | n + 1, s =>
    let (s1, a) := daemonTick pm pa pp fs ⟨false, .fail⟩ s
    let (s2, as) := runOpenFail pm pa pp fs n s1
    (s2, a :: as)

/-- The exit statuses `daemon_mode` can produce (daemon.c lines 96-519):
3 when another instance runs or the lock cannot be taken (lines 102, 109),
otherwise the loop runs until the shutdown flag is set and the function
returns 0 (line 518).  There is no other `return` in the function. -/
def daemon_mode_result (alreadyRunning lockFailed : Bool) : Nat :=
  if alreadyRunning then 3 else if lockFailed then 3 else 0

/-- Is an action a thermal-zone write? -/
def isThermalWrite : Action → Bool
  | .writeThermal _ _ => true
  | _ => false

/-! ## Spec-side data model

The specification describes the Parsed Reading Set as "up to three optional
integer Celsius values", and the Selector as returning
`max(subset) * 1000` on the present subset.  These definitions follow the
spec wording and serve as the comparison point for refinement claims. -/

/-- Modelled from the spec: the Parsed Reading Set of §3 — three optional
Celsius readings, each independently present or absent. -/
structure ReadingSet where
  modem : Option Int
  ap : Option Int
  pa : Option Int
deriving DecidableEq, Repr

/-- The readings actually present, in field order. -/
def presentList (r : ReadingSet) : List Int :=
  r.modem.toList ++ r.ap.toList ++ r.pa.toList

/-- Modelled from the spec: §4.3 / §8 `select` — the maximum across the
present fields, times 1000; undefined (`none`) on the empty set. -/
def specSelect (r : ReadingSet) : Option Int :=
  match presentList r with
  | [] => none
  | x :: xs => some (xs.foldl max x * 1000)

/-- The slot encoding `extract_temp_values` actually produces: all three
`int` slots start at 0 (temperature.c lines 145-147) and only present
fields overwrite their slot. -/
def slotsOf (r : ReadingSet) : Int × Int × Int :=
  (r.modem.getD 0, r.ap.getD 0, r.pa.getD 0)

/-! ## Response builder

A family of well-formed `AT+QTEMP` responses covering every subset of the
three configured labels, used to state the parser-tolerance claims: one
`+QTEMP:"<label>","<value>"` line per present field, joined by CRLF (the
empty subset is a bare `+QTEMP:` line). -/

/-- Decimal digit character. -/
def digitChar (d : Nat) : Char :=
  match d with
  | 0 => '0' | 1 => '1' | 2 => '2' | 3 => '3' | 4 => '4'
  | 5 => '5' | 6 => '6' | 7 => '7' | 8 => '8' | _ => '9'

/-- Decimal digits of a natural number (most significant first). -/
def natToChars (n : Nat) : List Char :=
  if h : n < 10 then [digitChar n]
  else natToChars (n / 10) ++ [digitChar (n % 10)]
decreasing_by exact Nat.div_lt_self (Nat.lt_of_lt_of_le (by decide) (Nat.le_of_not_lt h)) (by decide)

/-- Decimal rendering of an integer value. -/
def intToChars (v : Int) : List Char :=
  if v < 0 then '-' :: natToChars v.natAbs else natToChars v.toNat

/-- `"\r\n"`. -/
def CRLF : List Char := ['\r', '\n']

/-- The fixed text of one response line up to the opening value quote:
`+QTEMP:"<label>","`. -/
def labChunk (lab : List Char) : List Char :=
  qtempMarker ++ '"' :: lab ++ ['"', ',', '"']

/-- One full response line `+QTEMP:"<label>","<value>"`. -/
def segText (lab v : List Char) : List Char :=
  labChunk lab ++ v ++ ['"']

/-- The response text for a list of (label, value-text) pairs. -/
def flatSegs : List (List Char × List Char) → List Char
  | [] => qtempMarker
  | [(l, v)] => segText l v
  | (l, v) :: rest => segText l v ++ CRLF ++ flatSegs rest

/-- The (label, value-text) pairs for a presence triple, in field order. -/
def segsOf (mv av pv : Option Int) : List (List Char × List Char) :=
  (mv.toList.map fun n => (labM, intToChars n))
  ++ (av.toList.map fun n => (labA, intToChars n))
  ++ (pv.toList.map fun n => (labP, intToChars n))

/-- A well-formed response containing exactly the present fields. -/
def buildResp (mv av pv : Option Int) : List Char :=
  flatSegs (segsOf mv av pv)

/-! ## Pattern-occurrence machinery

Decidable checks used to locate (or rule out) pattern occurrences inside a
built response whose value regions are arbitrary digit strings. -/

/-- Could `P` be a prefix of `C ++ z` for some unknown `z`?  (Compares `P`
with `C` on their common length.) -/
def compatPrefix : List Char → List Char → Bool
  | [], _ => true
  | _ :: _, [] => true
  | p :: ps, c :: cs => p = c && compatPrefix ps cs

/-- A value region consists of decimal digits and minus signs and is
non-empty. -/
def cleanVal (v : List Char) : Bool :=
  !v.isEmpty && v.all fun c => isDigitC c || c = '-'

/-- The head of `P` is not a character that can occur in a value region. -/
def headNotVal : List Char → Bool
  | [] => false
  | c :: _ => !(isDigitC c || c = '-')

/-- After matching a suffix `s` of some chunk, the next pattern character
would have to match a value-region character — and cannot. -/
def valHeadBad (P : List Char) (k : Nat) : Bool :=
  headNotVal (P.drop k)

/-- No nonempty suffix `s` of `C` admits `P` as a prefix of `s ++ W ++ z`,
refuted inside the window `s ++ W`. -/
def refuteTails (P C W : List Char) : Bool :=
  C.tails.all fun s => s.isEmpty || !compatPrefix P (s ++ W)

/-- Like `refuteTails` with no window, but a compatible suffix is allowed
when the continuation is a value region the pattern cannot match into. -/
def refuteTailsV (P C : List Char) : Bool :=
  C.tails.all fun s => s.isEmpty || !compatPrefix P s || valHeadBad P s.length

/-- No nonempty suffix of `C` — this time with nothing following — has `P`
as a prefix. -/
def refuteTailsEnd (P C : List Char) : Bool :=
  C.tails.all fun s => s.isEmpty || !isPrefixC P s

/-- Decidable side conditions under which pattern `P` occurs nowhere in
`flatSegs segs`, in terms of the label list of `segs`. -/
def segsSafeB (P : List Char) : List (List Char) → Bool
  | [] => refuteTailsEnd P qtempMarker
  | [l] => refuteTailsV P (labChunk l) && refuteTailsEnd P ['"']
  | l :: l2 :: rest =>
    refuteTailsV P (labChunk l) && refuteTails P ('"' :: CRLF) (labChunk l2)
    && segsSafeB P (l2 :: rest)

/-- Decidable side conditions under which pattern `P` occurs nowhere in the
text of the segments preceding the matched label `lnext`. -/
def preSafeB (P : List Char) : List (List Char) → List Char → Bool
  | [], _ => true
  | l1 :: rest, lnext =>
    refuteTailsV P (labChunk l1)
    && refuteTails P ('"' :: CRLF) (labChunk (rest.headD lnext))
    && preSafeB P rest lnext

/-- The text of a list of segments, each followed by its CRLF separator
(the text preceding a later segment). -/
def flatPre : List (List Char × List Char) → List Char
  | [] => []
  | (l, v) :: rest => segText l v ++ CRLF ++ flatPre rest

/-- The suffix of the response starting at the matched label quote. -/
def afterText (l v : List Char) (post : List (List Char × List Char)) : List Char :=
  '"' :: l ++ ['"', ',', '"'] ++ v ++ ['"']
  ++ (if post.isEmpty then [] else CRLF ++ flatSegs post)

/-- The maximum of the present readings (0 on the empty set, which the spec
excludes). -/
def maxPresent (r : ReadingSet) : Int :=
  match presentList r with
  | [] => 0
  | x :: xs => xs.foldl max x

/-!
# Theorems

Helper lemmas first, then one theorem per claim (with witness or
counterexample theorems where required).
-/

/-! ## Generic list lemmas -/

theorem isPrefixC_append_self (x z : List Char) : isPrefixC x (x ++ z) = true := by
  induction x with
  | nil => rfl
  | cons c t ih => simp [isPrefixC, ih]

theorem isPrefixC_nil_false {P : List Char} (hP : P ≠ []) :
    isPrefixC P [] = false := by
  cases P with
  | nil => exact absurd rfl hP
  | cons c t => rfl

theorem isPrefixC_iff {P X : List Char} :
    isPrefixC P X = true ↔ ∃ z, X = P ++ z := by
  induction P generalizing X with
  | nil => simpa [isPrefixC] using ⟨X, rfl⟩
  | cons p ps ih =>
    cases X with
    | nil =>
      simp only [isPrefixC]
      constructor
      · intro h; exact absurd h (by simp)
      · rintro ⟨z, hz⟩; simp at hz
    | cons x xs =>
      simp only [isPrefixC, Bool.and_eq_true, decide_eq_true_eq, ih]
      constructor
      · rintro ⟨rfl, z, rfl⟩; exact ⟨z, rfl⟩
      · rintro ⟨z, hz⟩
        rw [List.cons_append] at hz
        injection hz with h1 h2
        exact ⟨h1.symm, z, h2⟩

theorem isPrefixC_append_cancel (x y z : List Char) :
    isPrefixC (x ++ y) (x ++ z) = isPrefixC y z := by
  induction x with
  | nil => rfl
  | cons c t ih => simp [isPrefixC, ih]

theorem compat_of_isPrefixC {P W z : List Char}
    (h : isPrefixC P (W ++ z) = true) : compatPrefix P W = true := by
  induction W generalizing P with
  | nil => cases P <;> rfl
  | cons c w ih =>
    cases P with
    | nil => rfl
    | cons p ps =>
      rw [List.cons_append] at h
      simp only [isPrefixC, Bool.and_eq_true, decide_eq_true_eq] at h
      simp only [compatPrefix, Bool.and_eq_true, decide_eq_true_eq]
      exact ⟨h.1, ih h.2⟩

theorem compat_refutes {P W : List Char} (h : compatPrefix P W = false)
    (z : List Char) : isPrefixC P (W ++ z) = false := by
  cases hp : isPrefixC P (W ++ z) with
  | false => rfl
  | true =>
    rw [compat_of_isPrefixC hp] at h
    exact absurd h (by simp)

theorem compat_split {P C : List Char} (h : compatPrefix P C = true)
    (hlen : C.length ≤ P.length) : isPrefixC C P = true := by
  induction C generalizing P with
  | nil => rfl
  | cons c cs ih =>
    cases P with
    | nil => simp at hlen
    | cons p ps =>
      simp only [compatPrefix, Bool.and_eq_true, decide_eq_true_eq] at h
      simp only [List.length_cons, Nat.add_le_add_iff_right] at hlen
      simp only [isPrefixC, Bool.and_eq_true, decide_eq_true_eq]
      exact ⟨h.1.symm, ih h.2 hlen⟩

theorem tails_mem_suffix {s l : List Char} (h : s ∈ l.tails) : s <:+ l :=
  (List.mem_tails s l).mp h

theorem tails_append_cases {s X Y : List Char} (h : s ∈ (X ++ Y).tails) :
    (∃ s1, s1 ∈ X.tails ∧ s1 ≠ [] ∧ s = s1 ++ Y) ∨ s ∈ Y.tails := by
  induction X with
  | nil => exact Or.inr h
  | cons c t ih =>
    rw [List.cons_append, List.tails_cons] at h
    rcases List.mem_cons.mp h with h1 | h1
    · exact Or.inl ⟨c :: t, by simp [List.tails_cons], by simp, h1⟩
    · rcases ih h1 with ⟨s1, hs1, hne, rfl⟩ | h2
      · exact Or.inl ⟨s1, by simp [List.tails_cons, hs1], hne, rfl⟩
      · exact Or.inr h2

theorem refuteTails_sound {P C W : List Char} (h : refuteTails P C W = true)
    {s : List Char} (hs : s ∈ C.tails) (hne : s ≠ []) (z : List Char) :
    isPrefixC P (s ++ W ++ z) = false := by
  have hx := List.all_eq_true.mp h s hs
  simp only [List.isEmpty_iff, Bool.or_eq_true, Bool.not_eq_true'] at hx
  rcases hx with hx | hx
  · exact absurd hx hne
  · exact compat_refutes hx z

theorem refuteTailsEnd_sound {P C : List Char} (h : refuteTailsEnd P C = true)
    {s : List Char} (hs : s ∈ C.tails) (hne : s ≠ []) :
    isPrefixC P s = false := by
  have hx := List.all_eq_true.mp h s hs
  simp only [List.isEmpty_iff, Bool.or_eq_true, Bool.not_eq_true'] at hx
  rcases hx with hx | hx
  · exact absurd hx hne
  · exact hx

theorem refuteTailsV_sound {P C val : List Char} (h : refuteTailsV P C = true)
    (hval : cleanVal val = true) {s : List Char} (hs : s ∈ C.tails)
    (hne : s ≠ []) (z : List Char) :
    isPrefixC P (s ++ val ++ z) = false := by
  have hx := List.all_eq_true.mp h s hs
  simp only [List.isEmpty_iff, Bool.or_eq_true, Bool.not_eq_true'] at hx
  rcases hx with (hx | hx) | hx
  · exact absurd hx hne
  · rw [List.append_assoc]
    exact compat_refutes hx (val ++ z)
  · cases hcase : isPrefixC P (s ++ val ++ z) with
    | false => rfl
    | true =>
      exfalso
      rcases hd : P.drop s.length with _ | ⟨c, cs⟩
      · rw [valHeadBad, hd] at hx
        exact absurd hx (by decide)
      · rw [valHeadBad, hd] at hx
        simp only [headNotVal, Bool.not_eq_true'] at hx
        have hslen : s.length ≤ P.length := by
          by_contra hlen
          rw [List.drop_eq_nil_iff.mpr (by omega)] at hd
          exact absurd hd (by simp)
        have hpre2 : isPrefixC P (s ++ (val ++ z)) = true := by
          rw [← List.append_assoc]
          exact hcase
        have hsp : isPrefixC s P = true :=
          compat_split (compat_of_isPrefixC hpre2) hslen
        rcases isPrefixC_iff.mp hsp with ⟨y, hy⟩
        have hyd : y = c :: cs := by
          rw [hy, List.drop_left] at hd
          exact hd
        rw [hy, hyd] at hpre2
        rw [isPrefixC_append_cancel] at hpre2
        rcases hvne : val with _ | ⟨d, ds⟩
        · rw [hvne] at hval
          simp [cleanVal] at hval
        · rw [hvne] at hpre2
          simp only [List.cons_append, isPrefixC, Bool.and_eq_true,
            decide_eq_true_eq] at hpre2
          have hd2 : (isDigitC d || d = '-') = true := by
            rw [cleanVal, Bool.and_eq_true, List.all_eq_true] at hval
            exact hval.2 d (by rw [hvne]; exact List.mem_cons_self d ds)
          rw [← hpre2.1] at hd2
          rw [hd2] at hx
          exact absurd hx (by simp)


theorem val_tail_safe {P val : List Char} (hval : cleanVal val = true)
    (hP : headNotVal P = true) {s : List Char} (hs : s ∈ val.tails)
    (hne : s ≠ []) (z : List Char) : isPrefixC P (s ++ z) = false := by
  rcases hPs : P with _ | ⟨c, cs⟩
  · rw [hPs] at hP; simp [headNotVal] at hP
  · rcases hss : s with _ | ⟨d, ds⟩
    · exact absurd hss hne
    · have hd : (isDigitC d || d = '-') = true := by
        rw [cleanVal, Bool.and_eq_true, List.all_eq_true] at hval
        refine hval.2 d ?_
        have hsfx := tails_mem_suffix hs
        rw [hss] at hsfx
        exact hsfx.subset (List.mem_cons_self d ds)
      rw [hPs] at hP
      simp only [headNotVal, Bool.not_eq_true'] at hP
      have hcd : c ≠ d := by
        intro he
        rw [he] at hP
        rw [hP] at hd
        exact absurd hd (by simp)
      rw [List.cons_append]
      simp [isPrefixC, hcd]

theorem findPat_none_of_safe {P : List Char} (hP : P ≠ []) :
    ∀ (R rpre : List Char),
    (∀ s ∈ R.tails, s ≠ [] → isPrefixC P s = false) →
    findPat rpre R P = none := by
  intro R
  induction R with
  | nil =>
    intro rpre _
    rw [findPat, if_neg (by simp [isPrefixC_nil_false hP])]
  | cons c t ih =>
    intro rpre hsafe
    rw [findPat, if_neg]
    · refine ih _ fun s hs hne => hsafe s ?_ hne
      rw [List.tails_cons]
      exact List.mem_cons_of_mem _ hs
    · have := hsafe (c :: t) (by rw [List.tails_cons]; exact List.mem_cons_self _ _)
        (by simp)
      simp [this]

theorem findPat_append_safe {P : List Char} (T : List Char)
    (hT : isPrefixC P T = true) :
    ∀ (A rpre : List Char),
    (∀ s ∈ A.tails, s ≠ [] → isPrefixC P (s ++ T) = false) →
    findPat rpre (A ++ T) P = some (A.reverse ++ rpre, T) := by
  intro A
  induction A with
  | nil =>
    intro rpre _
    rw [List.nil_append]
    cases T with
    | nil => rw [findPat, if_pos hT]; rfl
    | cons c t => rw [findPat, if_pos hT]; rfl
  | cons c t ih =>
    intro rpre hsafe
    rw [List.cons_append, findPat, if_neg]
    · rw [ih (c :: rpre) fun s hs hne => hsafe s (by
        rw [List.tails_cons]; exact List.mem_cons_of_mem _ hs) hne]
      simp
    · have := hsafe (c :: t)
        (by rw [List.tails_cons]; exact List.mem_cons_self _ _) (by simp)
      rw [List.cons_append] at this
      simp [this]

theorem takeWhile_append_all {p : Char → Bool} {x : List Char} (y : List Char)
    (hx : x.all p = true) : (x ++ y).takeWhile p = x ++ y.takeWhile p := by
  induction x with
  | nil => rfl
  | cons c t ih =>
    simp only [List.all_cons, Bool.and_eq_true] at hx
    rw [List.cons_append, List.takeWhile_cons, if_pos hx.1, ih hx.2]
    rfl

theorem digitChar_isDigit (d : Nat) : isDigitC (digitChar d) = true := by
  rcases d with _ | _ | _ | _ | _ | _ | _ | _ | _ | d <;> rfl

theorem digitChar_toNat {d : Nat} (hd : d < 10) :
    ((digitChar d).toNat : Int) = 48 + d := by
  interval_cases d <;> rfl

theorem natToChars_ne_nil (m : Nat) : natToChars m ≠ [] := by
  rw [natToChars]
  split
  · simp
  · simp

theorem natToChars_all_digit (m : Nat) : (natToChars m).all isDigitC = true := by
  induction m using Nat.strong_induction_on with
  | _ m ih =>
    rw [natToChars]
    split
    · simp [digitChar_isDigit]
    · rename_i hm
      rw [List.all_append, Bool.and_eq_true]
      exact ⟨ih (m / 10) (Nat.div_lt_self (by omega) (by decide)),
        by simp [digitChar_isDigit]⟩

theorem digitsVal_append_digit (xs : List Char) (d : Char) :
    digitsVal (xs ++ [d]) = digitsVal xs * 10 + ((d.toNat : Int) - 48) := by
  simp [digitsVal, List.foldl_append]

theorem digitsVal_natToChars (m : Nat) : digitsVal (natToChars m) = (m : Int) := by
  induction m using Nat.strong_induction_on with
  | _ m ih =>
    rw [natToChars]
    split
    · rename_i hm
      simp only [digitsVal, List.foldl_cons, List.foldl_nil]
      rw [digitChar_toNat hm]
      omega
    · rename_i hm
      rw [digitsVal_append_digit, ih (m / 10) (Nat.div_lt_self (by omega) (by decide)),
        digitChar_toNat (Nat.mod_lt m (by decide))]
      omega

theorem cleanVal_intToChars (n : Int) : cleanVal (intToChars n) = true := by
  rw [intToChars]
  split
  · simp only [cleanVal, List.isEmpty_cons, Bool.not_false, List.all_cons,
      Bool.true_and, Bool.and_eq_true]
    refine ⟨by decide, ?_⟩
    have h := natToChars_all_digit n.natAbs
    rw [List.all_eq_true] at h ⊢
    intro c hc
    rw [Bool.or_eq_true]
    exact Or.inl (h c hc)
  · simp only [cleanVal, Bool.and_eq_true]
    refine ⟨?_, ?_⟩
    · cases hm : natToChars n.toNat with
      | nil => exact absurd hm (natToChars_ne_nil _)
      | cons c t => simp [hm]
    · have h := natToChars_all_digit n.toNat
      rw [List.all_eq_true] at h ⊢
      intro c hc
      rw [Bool.or_eq_true]
      exact Or.inl (h c hc)

theorem parseDigits_natToChars (m : Nat) {c : Char} (hc : isDigitC c = false)
    (z : List Char) : parseDigits (natToChars m ++ c :: z) = some (m : Int) := by
  have h1 : (natToChars m ++ c :: z).takeWhile isDigitC = natToChars m := by
    rw [takeWhile_append_all _ (natToChars_all_digit m), List.takeWhile_cons,
      if_neg (by simp [hc]), List.append_nil]
  simp only [parseDigits, h1]
  rw [if_neg, digitsVal_natToChars]
  simp [List.isEmpty_iff, natToChars_ne_nil m]

theorem isDigitC_head_not_space {c : Char} (h : (isDigitC c || c = '-') = true) :
    isSpaceC c = false := by
  cases hsp : isSpaceC c with
  | false => rfl
  | true =>
    exfalso
    simp only [isSpaceC, Bool.or_eq_true, decide_eq_true_eq] at hsp
    rcases hsp with ((((h1 | h1) | h1) | h1) | h1) | h1 <;>
      (rw [h1] at h; exact absurd h (by decide))

theorem isDigitC_ne_quote {c : Char} (h : (isDigitC c || c = '-') = true) :
    (c = '"') = False := by
  simp only [eq_iff_iff, iff_false]
  intro he
  rw [he] at h
  exact absurd h (by decide)

/-- The round-trip at the heart of the parser tolerance proof: `strtol`
applied to the decimal rendering of an in-int-range value followed by a
closing quote recovers the value. -/
theorem strtolInt_intToChars (n : Int) (hn1 : -2147483648 ≤ n)
    (hn2 : n ≤ 2147483647) (z : List Char) :
    strtolInt (intToChars n ++ '"' :: z) = some n := by
  have hq : isDigitC '"' = false := by decide
  have hrange : ∀ v : Int, -2147483648 ≤ v → v ≤ 2147483647 →
      (Option.some v).bind (fun v =>
        if v < -2147483648 || v > 2147483647 then none else some v) = some v := by
    intro v h1 h2
    rw [Option.some_bind, if_neg]
    simp only [Bool.or_eq_true, decide_eq_true_eq, not_or, not_lt]
    exact ⟨h1, by omega⟩
  by_cases hneg : n < 0
  · rw [intToChars, if_pos hneg, List.cons_append]
    have hstep : strtolInt ('-' :: (natToChars n.natAbs ++ '"' :: z))
        = ((parseDigits (natToChars n.natAbs ++ '"' :: z)).map (fun v => -v)).bind
            (fun v => if v < -2147483648 || v > 2147483647 then none else some v) :=
      rfl
    rw [hstep, parseDigits_natToChars _ hq, Option.map_some']
    have habs : -((n.natAbs : Nat) : Int) = n := by omega
    rw [habs]
    exact hrange n hn1 hn2
  · rw [intToChars, if_neg hneg]
    rcases hm : natToChars n.toNat with _ | ⟨c, t⟩
    · exact absurd hm (natToChars_ne_nil _)
    · have hcd : isDigitC c = true := by
        have h := natToChars_all_digit n.toNat
        rw [hm, List.all_cons, Bool.and_eq_true] at h
        exact h.1
      have hcs : isSpaceC c = false := isDigitC_head_not_space (by simp [hcd])
      have hcm : ¬(c = '-') := by
        intro he
        rw [he] at hcd
        exact absurd hcd (by decide)
      have hcp : ¬(c = '+') := by
        intro he
        rw [he] at hcd
        exact absurd hcd (by decide)
      have hdw : (c :: (t ++ '"' :: z)).dropWhile isSpaceC = c :: (t ++ '"' :: z) := by
        rw [List.dropWhile_cons, if_neg (by simp [hcs])]
      have hstep : strtolInt (c :: (t ++ '"' :: z))
          = (if c = '-' then (parseDigits (t ++ '"' :: z)).map (fun v => -v)
             else if c = '+' then parseDigits (t ++ '"' :: z)
             else parseDigits (c :: (t ++ '"' :: z))).bind
              (fun v => if v < -2147483648 || v > 2147483647 then none else some v) := by
        rw [strtolInt]
        simp only [hdw]
      rw [List.cons_append, hstep, if_neg hcm, if_neg hcp]
      have hpd : parseDigits (c :: (t ++ '"' :: z)) = some ((n.toNat : Nat) : Int) := by
        rw [← List.cons_append, ← hm]
        exact parseDigits_natToChars _ hq z
      rw [hpd]
      have htn : ((n.toNat : Nat) : Int) = n := by omega
      rw [htn]
      exact hrange n hn1 hn2

theorem flatSegs_cons_head (l v : List Char) (rest : List (List Char × List Char)) :
    ∃ z, flatSegs ((l, v) :: rest) = labChunk l ++ z := by
  cases rest with
  | nil => exact ⟨v ++ ['"'], by simp [flatSegs, segText, List.append_assoc]⟩
  | cons r rs =>
    exact ⟨v ++ ['"'] ++ CRLF ++ flatSegs (r :: rs),
      by simp [flatSegs, segText, List.append_assoc]⟩

theorem flatPre_cons_head (l v : List Char) (r : List (List Char × List Char)) :
    ∃ z, flatPre ((l, v) :: r) = labChunk l ++ z :=
  ⟨v ++ ['"'] ++ CRLF ++ flatPre r, by simp [flatPre, segText, List.append_assoc]⟩

theorem marker_afterText (l v : List Char) (post : List (List Char × List Char)) :
    ∃ z, qtempMarker ++ afterText l v post = labChunk l ++ z :=
  ⟨v ++ '"' :: (if post.isEmpty then [] else CRLF ++ flatSegs post),
    by simp [afterText, labChunk, List.append_assoc]⟩

/-- Pattern `P` occurs nowhere in a built response whose labels satisfy the
decidable `segsSafeB` side conditions. -/
theorem flatSegs_no_occur (P : List Char) (hP : headNotVal P = true) :
    ∀ (segs : List (List Char × List Char)),
    (∀ x ∈ segs, cleanVal x.2 = true) →
    segsSafeB P (segs.map Prod.fst) = true →
    ∀ s ∈ (flatSegs segs).tails, s ≠ [] → isPrefixC P s = false := by
  intro segs
  induction segs with
  | nil =>
    intro _ hsafe s hs hne
    exact refuteTailsEnd_sound hsafe hs hne
  | cons x rest ih =>
    rcases x with ⟨l, v⟩
    intro hvals hsafe s hs hne
    have hv : cleanVal v = true := hvals (l, v) (List.mem_cons_self _ _)
    have hvrest : ∀ x ∈ rest, cleanVal x.2 = true :=
      fun x hx => hvals x (List.mem_cons_of_mem _ hx)
    cases rest with
    | nil =>
      simp only [List.map_cons, List.map_nil, segsSafeB, Bool.and_eq_true] at hsafe
      have hflat : flatSegs [(l, v)] = labChunk l ++ (v ++ ['"']) := by
        simp [flatSegs, segText, List.append_assoc]
      rw [hflat] at hs
      rcases tails_append_cases hs with ⟨s1, hs1, hne1, rfl⟩ | hs3
      · rw [← List.append_assoc]
        exact refuteTailsV_sound hsafe.1 hv hs1 hne1 ['"']
      · rcases tails_append_cases hs3 with ⟨s2, hs2v, hne2, rfl⟩ | hs4
        · exact val_tail_safe hv hP hs2v hne2 ['"']
        · exact refuteTailsEnd_sound hsafe.2 hs4 hne
    | cons y rs =>
      rcases y with ⟨l2, v2⟩
      simp only [List.map_cons, segsSafeB, Bool.and_eq_true] at hsafe
      have hflat : flatSegs ((l, v) :: (l2, v2) :: rs)
          = labChunk l ++ (v ++ (('"' :: CRLF) ++ flatSegs ((l2, v2) :: rs))) := by
        simp [flatSegs, segText, CRLF, List.append_assoc]
      rw [hflat] at hs
      rcases tails_append_cases hs with ⟨s1, hs1, hne1, rfl⟩ | hs2
      · rw [← List.append_assoc]
        exact refuteTailsV_sound hsafe.1.1 hv hs1 hne1 _
      · rcases tails_append_cases hs2 with ⟨s2, hs2v, hne2, rfl⟩ | hs3
        · exact val_tail_safe hv hP hs2v hne2 _
        · rcases tails_append_cases hs3 with ⟨s3, hs3c, hne3, rfl⟩ | hs4
          · rcases flatSegs_cons_head l2 v2 rs with ⟨z2, hz2⟩
            rw [hz2, ← List.append_assoc]
            exact refuteTails_sound hsafe.1.2 hs3c hne3 z2
          · have hsafe2 : segsSafeB P (((l2, v2) :: rs).map Prod.fst) = true := by
              simp only [List.map_cons]
              exact hsafe.2
            exact ih hvrest hsafe2 s hs4 hne

/-- Pattern `P` does not occur anywhere strictly before the matched label of
a built response: the text of the earlier segments plus the final `+QTEMP:`
marker admits no occurrence, whatever the continuation `afterText`. -/
theorem flatPre_safe (P : List Char) (hP : headNotVal P = true)
    (lnext vnext : List Char) (post : List (List Char × List Char))
    (hmark : refuteTails P qtempMarker [] = true) :
    ∀ (pre : List (List Char × List Char)),
    (∀ x ∈ pre, cleanVal x.2 = true) →
    preSafeB P (pre.map Prod.fst) lnext = true →
    ∀ s ∈ (flatPre pre ++ qtempMarker).tails, s ≠ [] →
      isPrefixC P (s ++ afterText lnext vnext post) = false := by
  intro pre
  induction pre with
  | nil =>
    intro _ _ s hs hne
    have h2 := refuteTails_sound hmark (by simpa [flatPre] using hs) hne
      (afterText lnext vnext post)
    simpa using h2
  | cons x pre ih =>
    rcases x with ⟨lx, vx⟩
    intro hvals hsafe s hs hne
    have hvx : cleanVal vx = true := hvals _ (List.mem_cons_self _ _)
    have hvrest : ∀ x ∈ pre, cleanVal x.2 = true :=
      fun x hx => hvals x (List.mem_cons_of_mem _ hx)
    simp only [List.map_cons, preSafeB, Bool.and_eq_true] at hsafe
    have hflat : flatPre ((lx, vx) :: pre) ++ qtempMarker
        = labChunk lx ++ (vx ++ (('"' :: CRLF) ++ (flatPre pre ++ qtempMarker))) := by
      simp [flatPre, segText, CRLF, List.append_assoc]
    rw [hflat] at hs
    rcases tails_append_cases hs with ⟨s1, hs1, hne1, rfl⟩ | hs2
    · simp only [List.append_assoc]
      rw [← List.append_assoc]
      exact refuteTailsV_sound hsafe.1.1 hvx hs1 hne1 _
    · rcases tails_append_cases hs2 with ⟨s2, hs2v, hne2, rfl⟩ | hs3
      · simp only [List.append_assoc]
        exact val_tail_safe hvx hP hs2v hne2 _
      · rcases tails_append_cases hs3 with ⟨s3, hs3c, hne3, rfl⟩ | hs4
        · cases pre with
          | nil =>
            rcases marker_afterText lnext vnext post with ⟨z2, hz2⟩
            simp only [flatPre, List.nil_append, List.append_assoc]
            rw [hz2, ← List.append_assoc]
            exact refuteTails_sound hsafe.1.2 hs3c hne3 z2
          | cons y pre2 =>
            rcases y with ⟨ly, vy⟩
            rcases flatPre_cons_head ly vy pre2 with ⟨z2, hz2⟩
            simp only [List.append_assoc]
            rw [hz2]
            simp only [List.append_assoc]
            rw [← List.append_assoc]
            exact refuteTails_sound hsafe.1.2 hs3c hne3 _
        · exact ih hvrest hsafe.2 s hs4 hne

theorem flatSegs_split (pre : List (List Char × List Char)) (l v : List Char)
    (post : List (List Char × List Char)) :
    flatSegs (pre ++ (l, v) :: post)
      = (flatPre pre ++ qtempMarker) ++ afterText l v post := by
  induction pre with
  | nil =>
    cases post with
    | nil => simp [flatSegs, flatPre, segText, labChunk, afterText, List.append_assoc]
    | cons q qs =>
      simp [flatSegs, flatPre, segText, labChunk, afterText, List.append_assoc]
  | cons x pre ih =>
    rcases x with ⟨lx, vx⟩
    rcases hsplit : pre ++ (l, v) :: post with _ | ⟨q, qs⟩
    · exact absurd hsplit (by simp)
    · rw [List.cons_append, hsplit]
      simp only [flatSegs]
      rw [← hsplit, ih]
      simp [flatPre, List.append_assoc]

theorem flatPre_ends_newline (r : List (List Char × List Char))
    (x : List Char × List Char) : ∃ w, flatPre (x :: r) = w ++ ['\n'] := by
  induction r generalizing x with
  | nil =>
    rcases x with ⟨l, v⟩
    exact ⟨segText l v ++ ['\r'], by simp [flatPre, CRLF, List.append_assoc]⟩
  | cons y rs ih =>
    rcases x with ⟨l, v⟩
    rcases ih y with ⟨w, hw⟩
    refine ⟨segText l v ++ CRLF ++ w, ?_⟩
    calc flatPre ((l, v) :: y :: rs)
        = segText l v ++ CRLF ++ flatPre (y :: rs) := rfl
      _ = segText l v ++ CRLF ++ (w ++ ['\n']) := by rw [hw]
      _ = segText l v ++ CRLF ++ w ++ ['\n'] := by simp [List.append_assoc]

/-- The reversed text before the matched marker contains no line break until
the marker itself has been passed: the back-scan of `lineFrom` stops exactly
at the start of the marker's line. -/
theorem takeWhile_marker_pre (pre : List (List Char × List Char)) :
    ((flatPre pre ++ qtempMarker).reverse).takeWhile
        (fun c => !(c = '\n' || c = '\r')) = qtempMarker.reverse := by
  cases pre with
  | nil => decide
  | cons x r =>
    rcases flatPre_ends_newline r x with ⟨w, hw⟩
    have hall : qtempMarker.reverse.all (fun c => !(c = '\n' || c = '\r')) = true := by
      decide
    rw [hw, List.reverse_append, List.reverse_append, takeWhile_append_all _ hall]
    simp

theorem flatSegs_starts_marker (segs : List (List Char × List Char)) :
    ∃ z, flatSegs segs = qtempMarker ++ z := by
  cases segs with
  | nil => exact ⟨[], by simp [flatSegs]⟩
  | cons x r =>
    rcases x with ⟨l, v⟩
    rcases flatSegs_cons_head l v r with ⟨z, hz⟩
    exact ⟨'"' :: l ++ ['"', ',', '"'] ++ z, by
      rw [hz]; simp [labChunk, List.append_assoc]⟩

theorem containsSub_append_self (pat z : List Char) :
    containsSub (pat ++ z) pat = true := by
  rw [containsSub]
  cases hpz : pat ++ z with
  | nil =>
    have hp : pat = [] := (List.append_eq_nil.mp hpz).1
    subst hp
    rfl
  | cons c t =>
    rw [findPat, if_pos (show isPrefixC pat (c :: t) = true by
      rw [← hpz]; exact isPrefixC_append_self pat z)]
    rfl

theorem containsSub_eq_false_of_safe {P R : List Char} (hP : P ≠ [])
    (hsafe : ∀ s ∈ R.tails, s ≠ [] → isPrefixC P s = false) :
    containsSub R P = false := by
  rw [containsSub, findPat_none_of_safe hP R [] hsafe]
  rfl

theorem extract_single_absent {P R : List Char} (hP : P ≠ [])
    (hsafe : ∀ s ∈ R.tails, s ≠ [] → isPrefixC P s = false) :
    extract_single_temperature R P = none := by
  simp only [extract_single_temperature, findPat_none_of_safe hP R [] hsafe]

/-- Evaluation of `extract_single_temperature` on a built response whose
matched label carries an arbitrary clean value text `w`: the function reduces
to `strtol` applied to the value region. -/
theorem extract_single_eval (l : List Char) (pre post : List (List Char × List Char))
    (w : List Char) (hw : cleanVal w = true)
    (hvals : ∀ x ∈ pre, cleanVal x.2 = true)
    (hpre : preSafeB (mkPattern l) (pre.map Prod.fst) l = true)
    (hmark : refuteTails (mkPattern l) qtempMarker [] = true) :
    extract_single_temperature (flatSegs (pre ++ (l, w) :: post)) (mkPattern l)
      = strtolInt (w ++ '"' :: (if post.isEmpty then [] else CRLF ++ flatSegs post)) := by
  cases w with
  | nil => exact absurd hw (by decide)
  | cons c t =>
    simp only [cleanVal, List.isEmpty_cons, Bool.not_false, Bool.true_and,
      List.all_cons, Bool.and_eq_true] at hw
    have hcprop : (isDigitC c || c = '-') = true := hw.1
    have hcq : c ≠ '"' := fun h => (isDigitC_ne_quote hcprop) ▸ h
    have hP : headNotVal (mkPattern l) = true := rfl
    have hTP : afterText l (c :: t) post
        = mkPattern l ++ (',' :: '"' :: (c :: t ++ '"' ::
            (if post.isEmpty then [] else CRLF ++ flatSegs post))) := by
      simp [afterText, mkPattern, List.append_assoc]
    have hTcons : afterText l (c :: t) post
        = '"' :: (l ++ ['"', ',', '"'] ++ (c :: t ++ '"' ::
            (if post.isEmpty then [] else CRLF ++ flatSegs post))) := by
      simp [afterText, List.append_assoc]
    have hT : isPrefixC (mkPattern l) (afterText l (c :: t) post) = true := by
      rw [hTP]; exact isPrefixC_append_self _ _
    have hsafeA := flatPre_safe (mkPattern l) hP l (c :: t) post hmark pre hvals hpre
    have hfind : findPat [] (flatSegs (pre ++ (l, c :: t) :: post)) (mkPattern l)
        = some ((flatPre pre ++ qtempMarker).reverse ++ [], afterText l (c :: t) post) := by
      rw [flatSegs_split]
      exact findPat_append_safe _ hT _ [] hsafeA
    have hline : lineFrom ((flatPre pre ++ qtempMarker).reverse ++ [])
        (afterText l (c :: t) post)
        = qtempMarker ++ afterText l (c :: t) post := by
      rw [List.append_nil, hTcons]
      simp only [lineFrom]
      rw [if_neg (by decide), takeWhile_marker_pre, List.reverse_reverse]
    have hdrop : (afterText l (c :: t) post).drop (mkPattern l).length
        = ',' :: '"' :: (c :: t ++ '"' ::
            (if post.isEmpty then [] else CRLF ++ flatSegs post)) := by
      rw [hTP, List.drop_left]
    have hrest : skipQuote (((afterText l (c :: t) post).drop
          (mkPattern l).length).dropWhile (fun ch => isSpaceC ch || ch = ','))
        = c :: (t ++ '"' :: (if post.isEmpty then [] else CRLF ++ flatSegs post)) := by
      rw [hdrop, List.dropWhile_cons, if_pos (by decide), List.dropWhile_cons,
        if_neg (by decide)]
      simp only [skipQuote]
      exact List.cons_append _ _ _
    have hcond : (c ≠ '"' && (isDigitC c || c = '-')) = true := by
      rw [Bool.and_eq_true]
      exact ⟨decide_eq_true hcq, hcprop⟩
    simp only [extract_single_temperature, hfind]
    rw [hline, if_pos (isPrefixC_append_self qtempMarker (afterText l (c :: t) post))]
    rw [hrest]
    simp only [hcond, if_true, List.cons_append]

/-- Positive half of the parser field tolerance: a label present in a built
response with an in-int-range rendered value is extracted with that value. -/
theorem extract_single_present (l : List Char) (n : Int)
    (hn1 : -2147483648 ≤ n) (hn2 : n ≤ 2147483647)
    (pre post : List (List Char × List Char))
    (hvals : ∀ x ∈ pre, cleanVal x.2 = true)
    (hpre : preSafeB (mkPattern l) (pre.map Prod.fst) l = true)
    (hmark : refuteTails (mkPattern l) qtempMarker [] = true) :
    extract_single_temperature (flatSegs (pre ++ (l, intToChars n) :: post))
      (mkPattern l) = some n := by
  rw [extract_single_eval l pre post (intToChars n) (cleanVal_intToChars n) hvals hpre hmark]
  exact strtolInt_intToChars n hn1 hn2 _

theorem vals_clean_nil :
    ∀ x ∈ ([] : List (List Char × List Char)), cleanVal x.2 = true := by
  intro x hx
  simp at hx

theorem vals_clean_one (l1 : List Char) (n1 : Int) :
    ∀ x ∈ [(l1, intToChars n1)], cleanVal x.2 = true := by
  intro x hx
  rw [List.mem_singleton] at hx
  subst hx
  exact cleanVal_intToChars n1

theorem vals_clean_two (l1 l2 : List Char) (n1 n2 : Int) :
    ∀ x ∈ [(l1, intToChars n1), (l2, intToChars n2)], cleanVal x.2 = true := by
  intro x hx
  rcases List.mem_cons.mp hx with rfl | hx
  · exact cleanVal_intToChars n1
  rw [List.mem_singleton] at hx
  subst hx
  exact cleanVal_intToChars n2

theorem vals_clean_three (l1 l2 l3 : List Char) (n1 n2 n3 : Int) :
    ∀ x ∈ [(l1, intToChars n1), (l2, intToChars n2), (l3, intToChars n3)],
      cleanVal x.2 = true := by
  intro x hx
  rcases List.mem_cons.mp hx with rfl | hx
  · exact cleanVal_intToChars n1
  rcases List.mem_cons.mp hx with rfl | hx
  · exact cleanVal_intToChars n2
  rw [List.mem_singleton] at hx
  subst hx
  exact cleanVal_intToChars n3

theorem getD_absent (L : List (List Char × List Char)) (lab : List Char)
    (hvals : ∀ x ∈ L, cleanVal x.2 = true)
    (hne : mkPattern lab ≠ [])
    (hP : headNotVal (mkPattern lab) = true)
    (hs : segsSafeB (mkPattern lab) (L.map Prod.fst) = true) :
    (extract_single_temperature (flatSegs L) (mkPattern lab)).getD 0 = 0 := by
  rw [extract_single_absent hne (flatSegs_no_occur _ hP L hvals hs)]
  rfl

theorem getD_present (l : List Char) (n : Int) (hn : -40 ≤ n ∧ n ≤ 125)
    (pre post : List (List Char × List Char))
    (hvals : ∀ x ∈ pre, cleanVal x.2 = true)
    (hpre : preSafeB (mkPattern l) (pre.map Prod.fst) l = true)
    (hmark : refuteTails (mkPattern l) qtempMarker [] = true) :
    (extract_single_temperature (flatSegs (pre ++ (l, intToChars n) :: post))
        (mkPattern l)).getD 0 = n := by
  rw [extract_single_present l n (by omega) (by omega) pre post hvals hpre hmark]
  rfl

/-- Evaluation of `extract_temp_values` once the three marker checks and the
three per-field extraction results are known. -/
theorem etv_eval (R : List Char) (m a p : Int)
    (hcM : containsSub R qtempMarker = true)
    (hcE : containsSub R ("ERROR".toList) = false)
    (hcO : containsSub R ("OK".toList) = false)
    (hM : (extract_single_temperature R (mkPattern labM)).getD 0 = m)
    (hA : (extract_single_temperature R (mkPattern labA)).getD 0 = a)
    (hPp : (extract_single_temperature R (mkPattern labP)).getD 0 = p)
    (hmv : -40 ≤ m ∧ m ≤ 125) (hav : -40 ≤ a ∧ a ≤ 125)
    (hpv : -40 ≤ p ∧ p ≤ 125) :
    extract_temp_values R labM labA labP = some (m, a, p) := by
  have hr1 : ¬((m < TEMP_VALID_MIN || m > TEMP_VALID_MAX) = true) := by
    simp only [TEMP_VALID_MIN, TEMP_VALID_MAX, TEMP_ABSOLUTE_MIN, TEMP_ABSOLUTE_MAX,
      Bool.or_eq_true, decide_eq_true_eq]
    omega
  have hr2 : ¬((a < TEMP_VALID_MIN || a > TEMP_VALID_MAX) = true) := by
    simp only [TEMP_VALID_MIN, TEMP_VALID_MAX, TEMP_ABSOLUTE_MIN, TEMP_ABSOLUTE_MAX,
      Bool.or_eq_true, decide_eq_true_eq]
    omega
  have hr3 : ¬((p < TEMP_VALID_MIN || p > TEMP_VALID_MAX) = true) := by
    simp only [TEMP_VALID_MIN, TEMP_VALID_MAX, TEMP_ABSOLUTE_MIN, TEMP_ABSOLUTE_MAX,
      Bool.or_eq_true, decide_eq_true_eq]
    omega
  rw [extract_temp_values, hcM]
  rw [if_neg (by decide : ¬((!true : Bool) = true))]
  rw [hcE, if_neg (by decide : ¬((false : Bool) = true))]
  rw [hcO, Bool.false_and, if_neg (by decide : ¬((false : Bool) = true))]
  simp only [hM, hA, hPp]
  rw [if_neg hr1, if_neg hr2, if_neg hr3]

/-- Specialisation of `etv_eval` to a built response, discharging the marker
checks from the decidable safety side conditions. -/
theorem etv_of_segs (L : List (List Char × List Char)) (m a p : Int)
    (hvals : ∀ x ∈ L, cleanVal x.2 = true)
    (hsE : segsSafeB ("ERROR".toList) (L.map Prod.fst) = true)
    (hsO : segsSafeB ("OK".toList) (L.map Prod.fst) = true)
    (hM : (extract_single_temperature (flatSegs L) (mkPattern labM)).getD 0 = m)
    (hA : (extract_single_temperature (flatSegs L) (mkPattern labA)).getD 0 = a)
    (hPp : (extract_single_temperature (flatSegs L) (mkPattern labP)).getD 0 = p)
    (hmv : -40 ≤ m ∧ m ≤ 125) (hav : -40 ≤ a ∧ a ≤ 125)
    (hpv : -40 ≤ p ∧ p ≤ 125) :
    extract_temp_values (flatSegs L) labM labA labP = some (m, a, p) := by
  rcases flatSegs_starts_marker L with ⟨z, hz⟩
  have hcM : containsSub (flatSegs L) qtempMarker = true := by
    rw [hz]; exact containsSub_append_self _ _
  have hcE : containsSub (flatSegs L) ("ERROR".toList) = false :=
    containsSub_eq_false_of_safe (by decide)
      (flatSegs_no_occur _ (by decide) L hvals hsE)
  have hcO : containsSub (flatSegs L) ("OK".toList) = false :=
    containsSub_eq_false_of_safe (by decide)
      (flatSegs_no_occur _ (by decide) L hvals hsO)
  exact etv_eval _ m a p hcM hcE hcO hM hA hPp hmv hav hpv

/-- Membership in `thermalScan` output implies the action is a thermal write
of an allow-listed, non-blocklisted zone of the scanned list. -/
theorem thermalScan_mem {zones : List TZEntry} {v : Int} {a : Action}
    (h : a ∈ thermalScan zones v) :
    ∃ z ∈ zones, a = Action.writeThermal z.name v ∧
      ∃ t, z.typeRead = some t ∧ allowedType t = true ∧ blockedType t = false := by
  induction zones with
  | nil => simp [thermalScan] at h
  | cons z rest ih =>
    rw [thermalScan] at h
    split at h
    · rcases ih h with ⟨z1, hz1, he⟩
      exact ⟨z1, List.mem_cons_of_mem _ hz1, he⟩
    · split at h
      · rcases ih h with ⟨z1, hz1, he⟩
        exact ⟨z1, List.mem_cons_of_mem _ hz1, he⟩
      · rename_i t htr
        split at h
        · rcases ih h with ⟨z1, hz1, he⟩
          exact ⟨z1, List.mem_cons_of_mem _ hz1, he⟩
        · rename_i hb
          split at h
          · rename_i ha
            split at h
            · rcases List.mem_singleton.mp h with rfl
              exact ⟨z, List.mem_cons_self z rest, rfl, t, htr, ha,
                by revert hb; cases blockedType t <;> simp⟩
            · exact absurd h (List.not_mem_nil a)
          · rcases ih h with ⟨z1, hz1, he⟩
            exact ⟨z1, List.mem_cons_of_mem _ hz1, he⟩

/-- Every action produced by the thermal scan is a thermal write. -/
theorem thermalScan_isThermal {zones : List TZEntry} {v : Int} {a : Action}
    (h : a ∈ thermalScan zones v) : isThermalWrite a = true := by
  rcases thermalScan_mem h with ⟨z, _, rfl, _⟩
  rfl

theorem statsTail_no_thermal {s : LoopState} {n : List Char} {vv : Int} :
    Action.writeThermal n vv ∉ statsTail s := by
  simp only [statsTail]
  split <;> simp

theorem write_sinks_thermal {hw : Bool} {hp : List Char} {fs : SinkFs} {v : Int}
    {n : List Char} {vv : Int}
    (h : Action.writeThermal n vv ∈ write_sinks hw hp fs v) :
    Action.writeThermal n vv ∈ thermalScan fs.thermalZones v := by
  simp only [write_sinks, List.mem_append] at h
  rcases h with ((((h | h) | h) | h) | h)
  · split at h
    · split at h <;> simp at h
    · simp at h
  · split at h
    · split at h <;> simp at h
    · simp at h
  · split at h
    · split at h <;> simp at h
    · simp at h
  · split at h
    · split at h <;> simp at h
    · simp at h
  · exact h

/-- Every thermal write an iteration performs comes from the thermal scan of
that iteration, at some milli-degree value. -/
theorem tick_thermal_mem {pm pa pp : List Char} {fs : SinkFs} {inp : TickInput}
    {s : LoopState} {n : List Char} {vv : Int}
    (h : Action.writeThermal n vv ∈ (daemonTick pm pa pp fs inp s).2) :
    ∃ mdeg, Action.writeThermal n vv ∈ thermalScan fs.thermalZones mdeg := by
  simp only [daemonTick] at h
  split at h
  · split at h
    · simp at h
    · simp only [List.cons_append, List.nil_append] at h
      rcases List.mem_cons.mp h with h | h
      · exact absurd h.symm (by simp)
      · exact absurd h statsTail_no_thermal
  · split at h
    · exact absurd h statsTail_no_thermal
    · split at h
      · exact absurd h statsTail_no_thermal
      · split at h
        · simp at h
        · rcases List.mem_append.mp h with h | h
          · exact ⟨_, write_sinks_thermal h⟩
          · exact absurd h statsTail_no_thermal

theorem best_temp_eq_max (m a p : Int) : best_temp m a p = max (max m a) p := by
  simp only [best_temp, max_def]
  split_ifs <;> omega

/-- The selection of daemon.c lines 316-329 on in-envelope values. -/
theorem select_temp_mdeg_eq {m a p : Int} (h1 : -40 ≤ max (max m a) p)
    (h2 : max (max m a) p ≤ 125) :
    select_temp_mdeg m a p = some (max (max m a) p * 1000) := by
  have hd1 : TEMP_ABSOLUTE_MIN / 1000 = -40 := by decide
  have hd2 : TEMP_ABSOLUTE_MAX / 1000 = 125 := by decide
  simp only [select_temp_mdeg, best_temp_eq_max, hd1, hd2]
  rw [if_neg]
  simp only [Bool.or_eq_true, decide_eq_true_eq, not_or, not_lt]
  exact ⟨h1, by omega⟩

/-! ## Claim C9 — thermal-zone safety allow-list -/

/-- C9 (confirmed): a thermal-zone candidate whose declared type contains a
blocklisted substring (cpu, gpu, soc, board) is never written in any tick,
regardless of other candidates; every thermal write targets a zone whose
declared type is one of the modem allow-list entries. -/
theorem C9_blocklist_never_written
    (pm pa pp : List Char) (fs : SinkFs) (inp : TickInput) (s : LoopState)
    (n : List Char) (vv : Int) :
    (Action.writeThermal n vv ∈ (daemonTick pm pa pp fs inp s).2 →
      ∃ z ∈ fs.thermalZones, z.name = n ∧
        ∃ t, z.typeRead = some t ∧ allowedType t = true ∧ blockedType t = false)
    ∧ ((fs.thermalZones.map TZEntry.name).Nodup →
       ∀ z ∈ fs.thermalZones, ∀ t, z.typeRead = some t → blockedType t = true →
         Action.writeThermal z.name vv ∉ (daemonTick pm pa pp fs inp s).2) := by
  have part1 : Action.writeThermal n vv ∈ (daemonTick pm pa pp fs inp s).2 →
      ∃ z ∈ fs.thermalZones, z.name = n ∧
        ∃ t, z.typeRead = some t ∧ allowedType t = true ∧ blockedType t = false := by
    intro h
    rcases tick_thermal_mem h with ⟨mdeg, hmem⟩
    rcases thermalScan_mem hmem with ⟨z, hz, heq, t, htr, ha, hb⟩
    have hn : z.name = n := by
      injection heq with h1 _
      exact h1.symm
    exact ⟨z, hz, hn, t, htr, ha, hb⟩
  refine ⟨part1, ?_⟩
  intro hnodup z hz t htr hb hmem
  have part1z : ∃ z2 ∈ fs.thermalZones, z2.name = z.name ∧
      ∃ t2, z2.typeRead = some t2 ∧ allowedType t2 = true ∧ blockedType t2 = false := by
    have h := @tick_thermal_mem pm pa pp fs inp s z.name vv hmem
    rcases h with ⟨mdeg, hmem2⟩
    rcases thermalScan_mem hmem2 with ⟨z2, hz2, heq, t2, htr2, ha2, hb2⟩
    have hn : z2.name = z.name := by
      injection heq with h1 _
      exact h1.symm
    exact ⟨z2, hz2, hn, t2, htr2, ha2, hb2⟩
  rcases part1z with ⟨z2, hz2, hname, t2, htr2, _, hb2⟩
  have hzz : z2 = z := List.inj_on_of_nodup_map hnodup hz2 hz hname
  subst hzz
  rw [htr] at htr2
  injection htr2 with ht
  subst ht
  rw [hb] at hb2
  simp at hb2

/-- Witness for C9 at a concrete zone list: a tick with a cpu-typed zone and
a modem zone present writes only the modem zone. -/
theorem C9_blocklist_never_written_witness :
    ∃ z ∈ [TZEntry.mk "thermal_zone0".toList (some "cpu-thermal".toList) true true,
           TZEntry.mk "thermal_zone1".toList (some "quectel_rm520n".toList) true true],
      z.name = "thermal_zone1".toList ∧
      ∃ t, z.typeRead = some t ∧ allowedType t = true ∧ blockedType t = false :=
  (C9_blocklist_never_written labM labA labP
    ⟨true, true, false, false, false, false, false, false,
      [TZEntry.mk "thermal_zone0".toList (some "cpu-thermal".toList) true true,
       TZEntry.mk "thermal_zone1".toList (some "quectel_rm520n".toList) true true]⟩
    ⟨true, QueryIn.ok ("+QTEMP:\"modem-ambient-usr\",\"45\"".toList)⟩
    (initLoopState false []) "thermal_zone1".toList 45000).1 (by decide)

/-! ## Claim C8 — primary sink write -/

/-- C8 counterexample: in a filesystem state where `access(W_OK)` on the
primary path fails but an open for write would succeed, the tick writes
nothing to the primary sink — there IS a writability pre-check before the
open, contradicting the claim that the primary sink is written by directly
opening it with no pre-check. -/
theorem C8_precheck_counterexample :
    write_sinks false [] ⟨false, true, false, false, false, false, false, false, []⟩ 45000 = []
    ∧ SinkFs.primaryOpenOk ⟨false, true, false, false, false, false, false, false, []⟩ = true :=
  ⟨rfl, rfl⟩

/-- C8 (corrected): the primary sink is attempted on every successful tick,
but the open-for-write-and-print happens if and only if both the
`access(path, W_OK)` pre-check and the `fopen` succeed. -/
theorem C8_primary_write_iff (hw : Bool) (hp : List Char) (fs : SinkFs) (v : Int) :
    Action.writePrimary v ∈ write_sinks hw hp fs v
      ↔ (fs.primaryAccessW = true ∧ fs.primaryOpenOk = true) := by
  constructor
  · intro h
    simp only [write_sinks, List.mem_append] at h
    rcases h with ((((h | h) | h) | h) | h)
    · split at h
      · rename_i h1
        split at h
        · rename_i h2
          exact ⟨h1, h2⟩
        · simp at h
      · simp at h
    · split at h
      · split at h <;> simp at h
      · simp at h
    · split at h
      · split at h <;> simp at h
      · simp at h
    · split at h
      · split at h <;> simp at h
      · simp at h
    · exact absurd (thermalScan_isThermal h) (by simp [isThermalWrite])
  · rintro ⟨h1, h2⟩
    simp [write_sinks, h1, h2]

/-! ## Claim C4 — temperature selection -/

/-- C4 counterexample: for the subset containing only `modem = -5` the code
selects `0` (the absent slots were initialised to 0 and take part in the
maximum), not `max(subset) * 1000 = -5000` as the claim states. -/
theorem C4_selector_counterexample :
    select_temp_mdeg (slotsOf ⟨some (-5), none, none⟩).1
        (slotsOf ⟨some (-5), none, none⟩).2.1 (slotsOf ⟨some (-5), none, none⟩).2.2
      = some 0
    ∧ specSelect ⟨some (-5), none, none⟩ = some (-5000)
    ∧ select_temp_mdeg (slotsOf ⟨some (-5), none, none⟩).1
        (slotsOf ⟨some (-5), none, none⟩).2.1 (slotsOf ⟨some (-5), none, none⟩).2.2
      ≠ specSelect ⟨some (-5), none, none⟩ := by
  refine ⟨by decide, by decide, by decide⟩

/-- C4 (corrected): for every non-empty subset of in-range readings, the
selected value is `max(subset) * 1000` when all three fields are present but
`max(subset ∪ {0}) * 1000` otherwise — absent slots contribute their 0
initialisation.  When the maximum present reading is non-negative this
coincides with the claimed `max(subset) * 1000`, and
`{modem=30, ap=45, pa=20}` selects 45000. -/
theorem C4_selector_max (r : ReadingSet)
    (hne : presentList r ≠ [])
    (hr : ∀ x ∈ presentList r, TEMP_VALID_MIN ≤ x ∧ x ≤ TEMP_VALID_MAX) :
    select_temp_mdeg (slotsOf r).1 (slotsOf r).2.1 (slotsOf r).2.2
      = some ((if r.modem = none ∨ r.ap = none ∨ r.pa = none
                then max (maxPresent r) 0 else maxPresent r) * 1000)
    ∧ (0 ≤ maxPresent r →
      select_temp_mdeg (slotsOf r).1 (slotsOf r).2.1 (slotsOf r).2.2
        = some (maxPresent r * 1000))
    ∧ select_temp_mdeg 30 45 20 = some 45000 := by
  have hmin : TEMP_VALID_MIN = -40 := by decide
  have hmax : TEMP_VALID_MAX = 125 := by decide
  simp only [hmin, hmax] at hr
  have hA : select_temp_mdeg (slotsOf r).1 (slotsOf r).2.1 (slotsOf r).2.2
      = some ((if r.modem = none ∨ r.ap = none ∨ r.pa = none
                then max (maxPresent r) 0 else maxPresent r) * 1000) := by
    rcases r with ⟨mv, av, pv⟩
    rcases mv with _ | x <;> rcases av with _ | y <;> rcases pv with _ | z
    · exact absurd rfl hne
    all_goals
      simp only [presentList, Option.toList, List.append_nil, List.nil_append,
        List.cons_append, List.mem_cons, List.not_mem_nil, List.mem_singleton,
        forall_eq_or_imp, forall_eq, or_false, false_or] at hr
    all_goals
      simp only [slotsOf, Option.getD_some, Option.getD_none, maxPresent,
        presentList, Option.toList, List.append_nil, List.nil_append,
        List.cons_append, List.foldl_cons, List.foldl_nil, or_self, or_true,
        true_or, or_false, false_or, if_true, if_false, reduceCtorEq, ite_true,
        ite_false]
    all_goals
      rw [select_temp_mdeg_eq]
    all_goals
      congr 1
    all_goals
      simp only [max_def]
    all_goals
      split_ifs <;> omega
  refine ⟨hA, fun h0 => ?_, by decide⟩
  rw [hA]
  split
  · rw [max_eq_left h0]
  · rfl

/-! ## Claim C10 — sign of the written value -/

/-- C10 counterexample: a response in which all three fields are present and
negative parses successfully, and the daemon then selects and writes
-3000 m°C — a negative value, contradicting the claimed invariant that the
written value is always non-negative (and 0 when every present reading is
negative). -/
theorem C10_negative_write_counterexample :
    extract_temp_values
      ("+QTEMP:\"modem-ambient-usr\",\"-5\"\r\n+QTEMP:\"cpuss-0-usr\",\"-3\"\r\n+QTEMP:\"modem-lte-sub6-pa1\",\"-10\"").toList
      labM labA labP = some (-5, -3, -10)
    ∧ select_temp_mdeg (-5) (-3) (-10) = some (-3000)
    ∧ (-3000 : Int) < 0 := by
  refine ⟨by decide, by decide, by decide⟩

/-- C10 (corrected): when at least one of the three fields is absent (its
slot keeps the 0 initialisation), the selected milli-degree value is
non-negative, and it is exactly 0 whenever every present reading is
negative; when all three fields are present the selected value is their
maximum and may be negative. -/
theorem C10_nonnegative_when_absent (r : ReadingSet)
    (habs : r.modem = none ∨ r.ap = none ∨ r.pa = none)
    (hr : ∀ x ∈ presentList r, x ≤ TEMP_VALID_MAX) :
    ∃ M, select_temp_mdeg (slotsOf r).1 (slotsOf r).2.1 (slotsOf r).2.2 = some M
      ∧ 0 ≤ M ∧ ((∀ x ∈ presentList r, x < 0) → M = 0) := by
  have hmax : TEMP_VALID_MAX = 125 := by decide
  simp only [hmax] at hr
  rcases r with ⟨mv, av, pv⟩
  rcases mv with _ | x <;> rcases av with _ | y <;> rcases pv with _ | z
  all_goals
    simp only [presentList, Option.toList, List.append_nil, List.nil_append,
      List.cons_append, List.mem_cons, List.not_mem_nil, List.mem_singleton,
      forall_eq_or_imp, forall_eq, or_false, false_or] at hr
  all_goals
    simp only [slotsOf, Option.getD_some, Option.getD_none]
  · exact ⟨0, select_temp_mdeg_eq (by decide) (by decide), by decide, fun _ => by decide⟩
  all_goals
    first
    | (refine ⟨_, select_temp_mdeg_eq ?_ ?_, ?_, fun hneg => ?_⟩ <;>
        (try simp only [presentList, Option.toList, List.append_nil,
          List.nil_append, List.cons_append, List.mem_cons,
          List.not_mem_nil, List.mem_singleton, forall_eq_or_imp,
          forall_eq, or_false, false_or] at hneg) <;>
        (simp only [max_def]; split_ifs <;> omega))
    | exact absurd habs (by simp)

/-- Witness for C10 at a concrete reading set: only `modem = -5` present
yields a written value of exactly 0. -/
theorem C10_nonnegative_when_absent_witness :
    (ReadingSet.modem ⟨some (-5), none, none⟩ = none
      ∨ ReadingSet.ap ⟨some (-5), none, none⟩ = none
      ∨ ReadingSet.pa ⟨some (-5), none, none⟩ = none)
    ∧ ∃ M, select_temp_mdeg (slotsOf ⟨some (-5), none, none⟩).1
        (slotsOf ⟨some (-5), none, none⟩).2.1
        (slotsOf ⟨some (-5), none, none⟩).2.2 = some M
      ∧ 0 ≤ M ∧ ((∀ x ∈ presentList ⟨some (-5), none, none⟩, x < 0) → M = 0) :=
  ⟨by decide, C10_nonnegative_when_absent ⟨some (-5), none, none⟩ (by decide) (by decide)⟩

/-! ## Claim C7 — sink caches -/

theorem statsTail_filter_thermal (s : LoopState) :
    (statsTail s).filter isThermalWrite = [] := by
  simp only [statsTail]
  split <;> rfl

theorem write_sinks_filter_thermal (hw : Bool) (hp : List Char) (fs : SinkFs)
    (v : Int) :
    (write_sinks hw hp fs v).filter isThermalWrite = thermalScan fs.thermalZones v := by
  have hnest : ∀ (c1 c2 : Prop) [Decidable c1] [Decidable c2] (a : Action),
      isThermalWrite a = false →
      ((if c1 then (if c2 then [a] else []) else []).filter isThermalWrite) = [] := by
    intro c1 c2 _ _ a ha
    split
    · split <;> simp [ha]
    · rfl
  simp only [write_sinks, List.filter_append]
  rw [hnest _ _ (Action.writePrimary v) rfl, hnest _ _ (Action.writeHwmon hp v) rfl,
    hnest _ _ (Action.writePlatform v) rfl, hnest _ _ (Action.writeSensor v) rfl,
    List.filter_eq_self.mpr fun a ha => thermalScan_isThermal ha]
  simp

/-- C7 (corrected): the hwmon cache fields are computed before the loop and
never modified by any iteration — a failed write does not invalidate them
and no re-scan happens inside the loop; the thermal-zone sink, by contrast,
is not cached at all: the thermal writes of every successful iteration are
recomputed from that iteration's directory listing. -/
theorem C7_hwmon_cache_fixed (pm pa pp : List Char) (fs : SinkFs)
    (inp : TickInput) (s : LoopState) :
    (daemonTick pm pa pp fs inp s).1.hwmonAvailable = s.hwmonAvailable
    ∧ (daemonTick pm pa pp fs inp s).1.hwmonPath = s.hwmonPath
    ∧ (∀ resp m a p mdeg, s.serialOpen = true → inp.q = QueryIn.ok resp →
        extract_temp_values resp pm pa pp = some (m, a, p) →
        select_temp_mdeg m a p = some mdeg →
        (daemonTick pm pa pp fs inp s).2.filter isThermalWrite
          = thermalScan fs.thermalZones mdeg) := by
  rcases inp with ⟨op, q⟩
  have hpres : (daemonTick pm pa pp fs ⟨op, q⟩ s).1.hwmonAvailable = s.hwmonAvailable
      ∧ (daemonTick pm pa pp fs ⟨op, q⟩ s).1.hwmonPath = s.hwmonPath := by
    simp only [daemonTick]
    rcases q with _ | resp
    · split_ifs <;> exact ⟨rfl, rfl⟩
    · rcases hex : extract_temp_values resp pm pa pp with _ | ⟨m, a, p⟩ <;>
        simp only [hex]
      · split_ifs <;> exact ⟨rfl, rfl⟩
      · rcases hsel : select_temp_mdeg m a p with _ | mdeg <;> simp only [hsel] <;>
          split_ifs <;> exact ⟨rfl, rfl⟩
  refine ⟨hpres.1, hpres.2, ?_⟩
  intro resp m a p mdeg hso hq hex hsel
  cases hq
  simp only [daemonTick, hso, Bool.not_true, Bool.false_and, Bool.and_eq_true,
    Bool.not_eq_true', if_true, if_false, hex, hsel]
  rw [if_neg (by simp [hso])]
  simp only [hso, if_true]
  rw [List.filter_append, write_sinks_filter_thermal, statsTail_filter_thermal,
    List.append_nil]

/-- C7 counterexample: a tick in which the write against the cached hwmon
path fails (`access(W_OK)` passes, `fopen` fails) leaves the cache fields
untouched and valid — the cache entry is NOT invalidated and no re-scan is
triggered, contradicting the claim. -/
theorem C7_no_invalidation_counterexample :
    (daemonTick labM labA labP
        ⟨false, false, true, false, false, false, false, false, []⟩
        ⟨true, QueryIn.ok "+QTEMP:\"modem-ambient-usr\",\"45\"".toList⟩
        ⟨true, 0, 10, true, "/sys/class/hwmon/hwmon3/temp1_input".toList,
          ⟨0, 0, 0, 0, 0⟩⟩).1.hwmonAvailable = true
    ∧ (daemonTick labM labA labP
        ⟨false, false, true, false, false, false, false, false, []⟩
        ⟨true, QueryIn.ok "+QTEMP:\"modem-ambient-usr\",\"45\"".toList⟩
        ⟨true, 0, 10, true, "/sys/class/hwmon/hwmon3/temp1_input".toList,
          ⟨0, 0, 0, 0, 0⟩⟩).1.hwmonPath
      = "/sys/class/hwmon/hwmon3/temp1_input".toList
    ∧ Action.writeHwmon "/sys/class/hwmon/hwmon3/temp1_input".toList 45000
        ∉ (daemonTick labM labA labP
            ⟨false, false, true, false, false, false, false, false, []⟩
            ⟨true, QueryIn.ok "+QTEMP:\"modem-ambient-usr\",\"45\"".toList⟩
            ⟨true, 0, 10, true, "/sys/class/hwmon/hwmon3/temp1_input".toList,
              ⟨0, 0, 0, 0, 0⟩⟩).2 := by
  refine ⟨by decide, by decide, by decide⟩

/-- Witness for C7 on a successful concrete tick: the thermal writes are
exactly the scan of the current directory listing. -/
theorem C7_hwmon_cache_fixed_witness :
    (daemonTick labM labA labP
        ⟨true, true, true, true, false, false, false, false,
          [TZEntry.mk "thermal_zone1".toList (some "quectel_rm520n".toList) true true]⟩
        ⟨true, QueryIn.ok "+QTEMP:\"modem-ambient-usr\",\"45\"".toList⟩
        ⟨true, 0, 10, true, "hw".toList, ⟨0, 0, 0, 0, 0⟩⟩).2.filter isThermalWrite
      = thermalScan
          [TZEntry.mk "thermal_zone1".toList (some "quectel_rm520n".toList) true true]
          45000 :=
  (C7_hwmon_cache_fixed labM labA labP
      ⟨true, true, true, true, false, false, false, false,
        [TZEntry.mk "thermal_zone1".toList (some "quectel_rm520n".toList) true true]⟩
      ⟨true, QueryIn.ok "+QTEMP:\"modem-ambient-usr\",\"45\"".toList⟩
      ⟨true, 0, 10, true, "hw".toList, ⟨0, 0, 0, 0, 0⟩⟩).2.2
    "+QTEMP:\"modem-ambient-usr\",\"45\"".toList 45 0 0 45000
    rfl rfl (by decide) (by decide)

/-! ## Claim C2 — hardware-plausible range -/

/-- C2 counterexample: a modem reading of 125 °C is outside the claimed
range [-40, 120] yet the parse succeeds and returns it — the actual upper
bound of the code is `TEMP_ABSOLUTE_MAX / 1000 = 125`. -/
theorem C2_range_counterexample :
    extract_temp_values "+QTEMP:\"modem-ambient-usr\",\"125\"".toList labM labA labP
      = some (125, 0, 0)
    ∧ ((125 : Int) > 120) := ⟨by decide, by decide⟩

/-- C2 (corrected): every value a successful parse returns lies within
`[TEMP_VALID_MIN, TEMP_VALID_MAX] = [-40, 125]` (not 120); a field outside
that range (for example 200) fails the entire parse with no partial result
even when other fields are valid, and an in-range value such as 125 is
returned exactly, never clamped. -/
theorem C2_range_valid (resp pm pa pp : List Char) (m a p : Int)
    (h : extract_temp_values resp pm pa pp = some (m, a, p)) :
    ((TEMP_VALID_MIN ≤ m ∧ m ≤ TEMP_VALID_MAX)
      ∧ (TEMP_VALID_MIN ≤ a ∧ a ≤ TEMP_VALID_MAX)
      ∧ (TEMP_VALID_MIN ≤ p ∧ p ≤ TEMP_VALID_MAX))
    ∧ extract_temp_values
        "+QTEMP:\"modem-ambient-usr\",\"200\",\"cpuss-0-usr\",\"45\"".toList
        labM labA labP = none
    ∧ extract_temp_values "+QTEMP:\"modem-ambient-usr\",\"125\"".toList labM labA labP
      = some (125, 0, 0) := by
  refine ⟨?_, by decide, by decide⟩
  simp only [extract_temp_values] at h
  split at h
  · exact absurd h (by simp)
  · split at h
    · exact absurd h (by simp)
    · split at h
      · exact absurd h (by simp)
      · split at h
        · exact absurd h (by simp)
        · rename_i hc1
          split at h
          · exact absurd h (by simp)
          · rename_i hc2
            split at h
            · exact absurd h (by simp)
            · rename_i hc3
              simp only [Option.some.injEq, Prod.mk.injEq] at h
              rcases h with ⟨rfl, rfl, rfl⟩
              simp only [Bool.or_eq_true, decide_eq_true_eq, not_or, not_lt]
                at hc1 hc2 hc3
              exact ⟨⟨hc1.1, hc1.2⟩, ⟨hc2.1, hc2.2⟩, ⟨hc3.1, hc3.2⟩⟩

/-- Witness for C2 at the boundary response. -/
theorem C2_range_valid_witness :
    ((TEMP_VALID_MIN ≤ (125 : Int) ∧ (125 : Int) ≤ TEMP_VALID_MAX)
      ∧ (TEMP_VALID_MIN ≤ (0 : Int) ∧ (0 : Int) ≤ TEMP_VALID_MAX)
      ∧ (TEMP_VALID_MIN ≤ (0 : Int) ∧ (0 : Int) ≤ TEMP_VALID_MAX))
    ∧ extract_temp_values
        "+QTEMP:\"modem-ambient-usr\",\"200\",\"cpuss-0-usr\",\"45\"".toList
        labM labA labP = none
    ∧ extract_temp_values "+QTEMP:\"modem-ambient-usr\",\"125\"".toList labM labA labP
      = some (125, 0, 0) :=
  C2_range_valid "+QTEMP:\"modem-ambient-usr\",\"125\"".toList labM labA labP
    125 0 0 (by decide)

/-! ## Claim C5 — query return semantics -/

/-- The invariant of the `read_modem_response` read loop: a terminating run
returns either -1 with no terminator in the buffer, or the accumulated byte
count. -/
theorem rmrLoop_spec (buflen : Nat) :
    ∀ (evs : List ReadEv) (total : Nat) (buf : List Char) (v : Int) (b : List Char),
    total = buf.length → hasTerminator buf = false →
    rmrLoop buflen evs total buf = some (v, b) →
    (v = -1 ∧ hasTerminator b = false) ∨ (0 ≤ v ∧ v = (b.length : Int)) := by
  intro evs
  induction evs with
  | nil =>
    intro total buf v b ht hterm h
    simp only [rmrLoop] at h
    split at h
    · simp only [Option.some.injEq, Prod.mk.injEq] at h
      rcases h with ⟨rfl, rfl⟩
      exact Or.inr ⟨by omega, by omega⟩
    · exact absurd h (by simp)
  | cons ev rest ih =>
    intro total buf v b ht hterm h
    cases ev with
    | data s =>
      simp only [rmrLoop] at h
      split at h
      · simp only [Option.some.injEq, Prod.mk.injEq] at h
        rcases h with ⟨rfl, rfl⟩
        exact Or.inr ⟨by omega, by omega⟩
      · split at h
        · simp only [Option.some.injEq, Prod.mk.injEq] at h
          rcases h with ⟨rfl, rfl⟩
          refine Or.inr ⟨by omega, ?_⟩
          rw [List.length_append, ht]
        · rename_i hterm1
          refine ih _ _ v b ?_ (by simpa using hterm1) h
          rw [List.length_append, ht]
    | again t =>
      simp only [rmrLoop] at h
      split at h
      · simp only [Option.some.injEq, Prod.mk.injEq] at h
        rcases h with ⟨rfl, rfl⟩
        exact Or.inr ⟨by omega, by omega⟩
      · split at h
        · simp only [Option.some.injEq, Prod.mk.injEq] at h
          rcases h with ⟨rfl, rfl⟩
          exact Or.inr ⟨by omega, by omega⟩
        · exact ih _ _ v b ht hterm h
    | eof t =>
      simp only [rmrLoop] at h
      split at h
      · simp only [Option.some.injEq, Prod.mk.injEq] at h
        rcases h with ⟨rfl, rfl⟩
        exact Or.inr ⟨by omega, by omega⟩
      · split at h
        · simp only [Option.some.injEq, Prod.mk.injEq] at h
          rcases h with ⟨rfl, rfl⟩
          exact Or.inr ⟨by omega, by omega⟩
        · exact ih _ _ v b ht hterm h
    | rerr =>
      simp only [rmrLoop] at h
      split at h
      · simp only [Option.some.injEq, Prod.mk.injEq] at h
        rcases h with ⟨rfl, rfl⟩
        exact Or.inr ⟨by omega, by omega⟩
      · simp only [Option.some.injEq, Prod.mk.injEq] at h
        rcases h with ⟨rfl, rfl⟩
        exact Or.inl ⟨rfl, hterm⟩

/-- C5 counterexample: after reading partial data with no terminator, the
overall timeout elapses and `send_at_command` returns the positive byte
count 3 — treated as success by the caller (`> 0`) — instead of the error
the claim requires for a timeout with no terminator observed. -/
theorem C5_timeout_partial_counterexample :
    send_at_command 3 64 true true [ReadEv.data "abc".toList, ReadEv.again 6]
      = some (3, "abc".toList)
    ∧ hasTerminator "abc".toList = false
    ∧ ((3 : Int) > 0) := ⟨by decide, by decide, by decide⟩

/-- C5 (corrected): the query returns the accumulated bytes as a success
whenever a success or error terminator is observed; a distinct error value
(-1) is returned when a write fails or the read reports a hard error — and
never once a terminator has been observed; in every other terminating case,
including a timeout with no terminator, the accumulated byte count itself is
returned (positive — hence success for the caller — whenever partial data
arrived). -/
theorem C5_query_semantics (fd : Int) (buflen : Nat) (w1 w2 : Bool)
    (evs : List ReadEv) (v : Int) (b : List Char)
    (hfd : 0 ≤ fd) (hb1 : 64 ≤ buflen) (hb2 : buflen ≤ 4096)
    (h : send_at_command fd buflen w1 w2 evs = some (v, b)) :
    ((w1 = false ∨ w2 = false) → v = -1)
    ∧ (v = -1 → hasTerminator b = false)
    ∧ (v ≠ -1 → 0 ≤ v ∧ v = (b.length : Int))
    ∧ (hasTerminator b = true → v = (b.length : Int)) := by
  have hval : (decide (fd < 0) || decide (buflen < 64) || decide (buflen > 4096)) = false := by
    simp only [Bool.or_eq_false_iff, decide_eq_false_iff_not, not_lt]
    refine ⟨⟨?_, hb1⟩, hb2⟩
    simpa using hfd
  simp only [send_at_command, read_modem_response, hval, Bool.false_eq_true,
    if_false] at h
  rcases w1 with _ | _
  · simp only [Bool.not_false, eq_self_iff_true, if_true] at h
    simp only [Option.some.injEq, Prod.mk.injEq] at h
    rcases h with ⟨rfl, rfl⟩
    exact ⟨fun _ => rfl, fun _ => by decide, fun hc => absurd rfl hc, by decide⟩
  · simp only [Bool.not_true, Bool.false_eq_true, if_false] at h
    rcases w2 with _ | _
    · simp only [Bool.not_false, eq_self_iff_true, if_true] at h
      simp only [Option.some.injEq, Prod.mk.injEq] at h
      rcases h with ⟨rfl, rfl⟩
      exact ⟨fun _ => rfl, fun _ => by decide, fun hc => absurd rfl hc, by decide⟩
    · simp only [Bool.not_true, Bool.false_eq_true, if_false] at h
      rcases rmrLoop_spec buflen evs 0 [] v b rfl (by decide) h with
        ⟨hv, htb⟩ | ⟨hge, hlen⟩
      · refine ⟨fun hc => hv, fun _ => htb, fun hc => absurd hv hc, ?_⟩
        intro hterm
        rw [hterm] at htb
        exact absurd htb (by simp)
      · refine ⟨fun hc => ?_, fun hc => by omega, fun _ => ⟨hge, hlen⟩,
          fun _ => hlen⟩
        rcases hc with hc | hc <;> simp at hc

/-- Witness for C5 on a response terminated by `OK`. -/
theorem C5_query_semantics_witness :
    (((true = false ∨ true = false) → (7 : Int) = -1)
    ∧ ((7 : Int) = -1 → hasTerminator "x\r\nOK\r\n".toList = false)
    ∧ ((7 : Int) ≠ -1 → 0 ≤ (7 : Int)
        ∧ (7 : Int) = ("x\r\nOK\r\n".toList.length : Int))
    ∧ (hasTerminator "x\r\nOK\r\n".toList = true
        → (7 : Int) = ("x\r\nOK\r\n".toList.length : Int))) :=
  C5_query_semantics 3 64 true true [ReadEv.data "x\r\nOK\r\n".toList] 7
    "x\r\nOK\r\n".toList (by decide) (by decide) (by decide) (by decide)

/-! ## Claim C6 — exponential backoff -/

set_option maxHeartbeats 2000000 in
/-- C6 (confirmed): across six consecutive failed-open iterations from the
initial state, the Nth retry (N = 1..5) sleeps exactly
`min(initial * 2^(N-1), max_delay)` seconds — 10, 20, 40, 60, 60 — and the
sixth iteration performs no backoff sleep but the failed-cycle error report,
which occurs exactly once in those six iterations and never before the
attempt ceiling is reached. -/
theorem C6_backoff_growth_cap (pm pa pp : List Char) (fs : SinkFs) (hw : Bool)
    (hp : List Char) (n : Nat) (h1 : 1 ≤ n)
    (h2 : n ≤ SERIAL_MAX_RECONNECT_ATTEMPTS) :
    ((runOpenFail pm pa pp fs 6 (initLoopState hw hp)).2.get? (n - 1)
      = some [Action.backoffSleep
          (min (SERIAL_INITIAL_RECONNECT_DELAY * 2 ^ (n - 1)) SERIAL_MAX_RECONNECT_DELAY)])
    ∧ ((runOpenFail pm pa pp fs 6 (initLoopState hw hp)).2.get? 5
      = some [Action.failedCycleReport, Action.intervalSleep])
    ∧ (((runOpenFail pm pa pp fs 6 (initLoopState hw hp)).2.map
        (fun acts => acts.count Action.failedCycleReport)).sum = 1) := by
  have h5 : n ≤ 5 := h2
  interval_cases n <;> exact ⟨rfl, rfl, rfl⟩

/-- Witness for C6 at N = 4: the fourth retry sleeps
`min(10 * 2^3, 60) = 60` seconds. -/
theorem C6_backoff_growth_cap_witness :
    (1 ≤ 4 ∧ 4 ≤ SERIAL_MAX_RECONNECT_ATTEMPTS)
    ∧ ((runOpenFail labM labA labP
          ⟨false, false, false, false, false, false, false, false, []⟩
          6 (initLoopState false [])).2.get? (4 - 1)
        = some [Action.backoffSleep
            (min (SERIAL_INITIAL_RECONNECT_DELAY * 2 ^ (4 - 1)) SERIAL_MAX_RECONNECT_DELAY)]) :=
  ⟨⟨by decide, by decide⟩,
    (C6_backoff_growth_cap labM labA labP
      ⟨false, false, false, false, false, false, false, false, []⟩
      false [] 4 (by decide) (by decide)).1⟩

/-! ## Claim C1 — no fatal exit on exhausted reconnect cycles -/

theorem tick_openFail_state {pm pa pp : List Char} {fs : SinkFs} {s : LoopState}
    (hs : s.serialOpen = false) :
    (daemonTick pm pa pp fs ⟨false, QueryIn.fail⟩ s).1.serialOpen = false
    ∧ (daemonTick pm pa pp fs ⟨false, QueryIn.fail⟩ s).1.stats.total_iterations
      = s.stats.total_iterations + 1
    ∧ (daemonTick pm pa pp fs ⟨false, QueryIn.fail⟩ s).1.stats.serial_errors
      = s.stats.serial_errors + 1 := by
  simp only [daemonTick, hs, Bool.not_false, Bool.and_self, if_true]
  split <;> exact ⟨rfl, rfl, rfl⟩

theorem runOpenFail_stats (pm pa pp : List Char) (fs : SinkFs) :
    ∀ (n : Nat) (s : LoopState), s.serialOpen = false →
    (runOpenFail pm pa pp fs n s).1.serialOpen = false
    ∧ (runOpenFail pm pa pp fs n s).1.stats.total_iterations
      = s.stats.total_iterations + n
    ∧ (runOpenFail pm pa pp fs n s).1.stats.serial_errors
      = s.stats.serial_errors + n := by
  intro n
  induction n with
  | zero => intro s hs; exact ⟨hs, rfl, rfl⟩
  | succ n ih =>
    intro s hs
    rcases htick : daemonTick pm pa pp fs ⟨false, QueryIn.fail⟩ s with ⟨s1, a⟩
    have hfacts := @tick_openFail_state pm pa pp fs s hs
    rw [htick] at hfacts
    have hrun := ih s1 hfacts.1
    simp only [runOpenFail, htick]
    refine ⟨hrun.1, ?_, ?_⟩
    · rw [hrun.2.1, hfacts.2.1]; omega
    · rw [hrun.2.2, hfacts.2.2]; omega

/-- C1 (the code, at the failing scenario): however many consecutive
iterations fail to open the serial port — far beyond
`SERIAL_MAX_FAILED_CYCLES` worth of exhausted reconnect cycles — the loop
keeps iterating (every iteration executes and is counted) and never leaves
the loop; the only exit statuses `daemon_mode` can return are 3 (instance /
lock conflict, before the loop) and 0 (shutdown flag observed).  No distinct
non-zero fatal outcome exists, and `SERIAL_MAX_FAILED_CYCLES` is referenced
nowhere in the loop. -/
theorem C1_no_fatal_exit (pm pa pp : List Char) (fs : SinkFs) (hw : Bool)
    (hp : List Char) (n : Nat) :
    (runOpenFail pm pa pp fs n (initLoopState hw hp)).1.stats.total_iterations = n
    ∧ (runOpenFail pm pa pp fs n (initLoopState hw hp)).1.stats.serial_errors = n
    ∧ (runOpenFail pm pa pp fs n (initLoopState hw hp)).1.serialOpen = false
    ∧ daemon_mode_result false false = 0
    ∧ daemon_mode_result true false = 3 := by
  have h := runOpenFail_stats pm pa pp fs n (initLoopState hw hp) rfl
  refine ⟨?_, ?_, h.1, rfl, rfl⟩
  · simpa [initLoopState] using h.2.1
  · simpa [initLoopState] using h.2.2

/-- Witness for C4 at the subset of the claim: all three present. -/
theorem C4_selector_max_witness :
    presentList ⟨some 30, some 45, some 20⟩ ≠ [] ∧
    select_temp_mdeg (slotsOf ⟨some 30, some 45, some 20⟩).1
        (slotsOf ⟨some 30, some 45, some 20⟩).2.1
        (slotsOf ⟨some 30, some 45, some 20⟩).2.2
      = some (max (maxPresent ⟨some 30, some 45, some 20⟩) 0 * 1000) :=
  ⟨by decide, (C4_selector_max ⟨some 30, some 45, some 20⟩ (by decide) (by decide)).1⟩

/-- C3 (amended): for any response built from zero, one, two, or three of the
configured labels with in-range values, parsing succeeds; each present field
is returned with its value, but an absent field is not omitted from the
result — it is reported with the initialised value 0 (the result always
carries all three fields). -/
theorem C3_field_tolerance (mv av pv : Option Int)
    (hm : ∀ n ∈ mv, -40 ≤ n ∧ n ≤ 125)
    (ha : ∀ n ∈ av, -40 ≤ n ∧ n ≤ 125)
    (hp : ∀ n ∈ pv, -40 ≤ n ∧ n ≤ 125) :
    extract_temp_values (buildResp mv av pv) labM labA labP
      = some (mv.getD 0, av.getD 0, pv.getD 0) := by
  rcases mv with _ | m <;> rcases av with _ | a <;> rcases pv with _ | p
  · decide
  · have hpr := hp p rfl
    have hsegs : segsOf none none (some p) = [(labP, intToChars p)] := by
      simp [segsOf]
    rw [buildResp, hsegs]
    simp only [Option.getD_some, Option.getD_none]
    refine etv_of_segs [(labP, intToChars p)] 0 0 p (vals_clean_one _ _)
      (by simp only [List.map_cons, List.map_nil]; decide) (by simp only [List.map_cons, List.map_nil]; decide) ?_ ?_ ?_
      ⟨by decide, by decide⟩ ⟨by decide, by decide⟩ ⟨hpr.1, hpr.2⟩
    · exact getD_absent _ labM (vals_clean_one _ _) (by decide) (by decide) (by simp only [List.map_cons, List.map_nil]; decide)
    · exact getD_absent _ labA (vals_clean_one _ _) (by decide) (by decide) (by simp only [List.map_cons, List.map_nil]; decide)
    · have h := getD_present labP p hpr [] [] vals_clean_nil (by decide) (by decide)
      simpa using h
  · have har := ha a rfl
    have hsegs : segsOf none (some a) none = [(labA, intToChars a)] := by
      simp [segsOf]
    rw [buildResp, hsegs]
    simp only [Option.getD_some, Option.getD_none]
    refine etv_of_segs [(labA, intToChars a)] 0 a 0 (vals_clean_one _ _)
      (by simp only [List.map_cons, List.map_nil]; decide) (by simp only [List.map_cons, List.map_nil]; decide) ?_ ?_ ?_
      ⟨by decide, by decide⟩ ⟨har.1, har.2⟩ ⟨by decide, by decide⟩
    · exact getD_absent _ labM (vals_clean_one _ _) (by decide) (by decide) (by simp only [List.map_cons, List.map_nil]; decide)
    · have h := getD_present labA a har [] [] vals_clean_nil (by decide) (by decide)
      simpa using h
    · exact getD_absent _ labP (vals_clean_one _ _) (by decide) (by decide) (by simp only [List.map_cons, List.map_nil]; decide)
  · have har := ha a rfl
    have hpr := hp p rfl
    have hsegs : segsOf none (some a) (some p)
        = [(labA, intToChars a), (labP, intToChars p)] := by
      simp [segsOf]
    rw [buildResp, hsegs]
    simp only [Option.getD_some, Option.getD_none]
    refine etv_of_segs [(labA, intToChars a), (labP, intToChars p)] 0 a p
      (vals_clean_two _ _ _ _) (by simp only [List.map_cons, List.map_nil]; decide) (by simp only [List.map_cons, List.map_nil]; decide) ?_ ?_ ?_
      ⟨by decide, by decide⟩ ⟨har.1, har.2⟩ ⟨hpr.1, hpr.2⟩
    · exact getD_absent _ labM (vals_clean_two _ _ _ _) (by decide) (by decide) (by simp only [List.map_cons, List.map_nil]; decide)
    · have h := getD_present labA a har [] [(labP, intToChars p)]
        vals_clean_nil (by decide) (by decide)
      simpa using h
    · have h := getD_present labP p hpr [(labA, intToChars a)] []
        (vals_clean_one _ _) (by simp only [List.map_cons, List.map_nil]; decide) (by decide)
      simpa using h
  · have hmr := hm m rfl
    have hsegs : segsOf (some m) none none = [(labM, intToChars m)] := by
      simp [segsOf]
    rw [buildResp, hsegs]
    simp only [Option.getD_some, Option.getD_none]
    refine etv_of_segs [(labM, intToChars m)] m 0 0 (vals_clean_one _ _)
      (by simp only [List.map_cons, List.map_nil]; decide) (by simp only [List.map_cons, List.map_nil]; decide) ?_ ?_ ?_
      ⟨hmr.1, hmr.2⟩ ⟨by decide, by decide⟩ ⟨by decide, by decide⟩
    · have h := getD_present labM m hmr [] [] vals_clean_nil (by decide) (by decide)
      simpa using h
    · exact getD_absent _ labA (vals_clean_one _ _) (by decide) (by decide) (by simp only [List.map_cons, List.map_nil]; decide)
    · exact getD_absent _ labP (vals_clean_one _ _) (by decide) (by decide) (by simp only [List.map_cons, List.map_nil]; decide)
  · have hmr := hm m rfl
    have hpr := hp p rfl
    have hsegs : segsOf (some m) none (some p)
        = [(labM, intToChars m), (labP, intToChars p)] := by
      simp [segsOf]
    rw [buildResp, hsegs]
    simp only [Option.getD_some, Option.getD_none]
    refine etv_of_segs [(labM, intToChars m), (labP, intToChars p)] m 0 p
      (vals_clean_two _ _ _ _) (by simp only [List.map_cons, List.map_nil]; decide) (by simp only [List.map_cons, List.map_nil]; decide) ?_ ?_ ?_
      ⟨hmr.1, hmr.2⟩ ⟨by decide, by decide⟩ ⟨hpr.1, hpr.2⟩
    · have h := getD_present labM m hmr [] [(labP, intToChars p)]
        vals_clean_nil (by decide) (by decide)
      simpa using h
    · exact getD_absent _ labA (vals_clean_two _ _ _ _) (by decide) (by decide) (by simp only [List.map_cons, List.map_nil]; decide)
    · have h := getD_present labP p hpr [(labM, intToChars m)] []
        (vals_clean_one _ _) (by simp only [List.map_cons, List.map_nil]; decide) (by decide)
      simpa using h
  · have hmr := hm m rfl
    have har := ha a rfl
    have hsegs : segsOf (some m) (some a) none
        = [(labM, intToChars m), (labA, intToChars a)] := by
      simp [segsOf]
    rw [buildResp, hsegs]
    simp only [Option.getD_some, Option.getD_none]
    refine etv_of_segs [(labM, intToChars m), (labA, intToChars a)] m a 0
      (vals_clean_two _ _ _ _) (by simp only [List.map_cons, List.map_nil]; decide) (by simp only [List.map_cons, List.map_nil]; decide) ?_ ?_ ?_
      ⟨hmr.1, hmr.2⟩ ⟨har.1, har.2⟩ ⟨by decide, by decide⟩
    · have h := getD_present labM m hmr [] [(labA, intToChars a)]
        vals_clean_nil (by decide) (by decide)
      simpa using h
    · have h := getD_present labA a har [(labM, intToChars m)] []
        (vals_clean_one _ _) (by simp only [List.map_cons, List.map_nil]; decide) (by decide)
      simpa using h
    · exact getD_absent _ labP (vals_clean_two _ _ _ _) (by decide) (by decide) (by simp only [List.map_cons, List.map_nil]; decide)
  · have hmr := hm m rfl
    have har := ha a rfl
    have hpr := hp p rfl
    have hsegs : segsOf (some m) (some a) (some p)
        = [(labM, intToChars m), (labA, intToChars a), (labP, intToChars p)] := by
      simp [segsOf]
    rw [buildResp, hsegs]
    simp only [Option.getD_some]
    refine etv_of_segs
      [(labM, intToChars m), (labA, intToChars a), (labP, intToChars p)] m a p
      (vals_clean_three _ _ _ _ _ _) (by simp only [List.map_cons, List.map_nil]; decide) (by simp only [List.map_cons, List.map_nil]; decide) ?_ ?_ ?_
      ⟨hmr.1, hmr.2⟩ ⟨har.1, har.2⟩ ⟨hpr.1, hpr.2⟩
    · have h := getD_present labM m hmr []
        [(labA, intToChars a), (labP, intToChars p)]
        vals_clean_nil (by decide) (by decide)
      simpa using h
    · have h := getD_present labA a har [(labM, intToChars m)]
        [(labP, intToChars p)] (vals_clean_one _ _) (by simp only [List.map_cons, List.map_nil]; decide) (by decide)
      simpa using h
    · have h := getD_present labP p hpr
        [(labM, intToChars m), (labA, intToChars a)] []
        (vals_clean_two _ _ _ _) (by simp only [List.map_cons, List.map_nil]; decide) (by decide)
      simpa using h

/-- C3 counterexample to "a label absent from the response is omitted from
the result rather than reported with some value": a response without the
modem label parses to exactly the same result as a response where the modem
label is present with value 0 — the absent field is reported as 0, not
omitted, and the result always carries all three fields. -/
theorem C3_absent_reported_as_zero_counterexample :
    extract_temp_values ("+QTEMP:\"cpuss-0-usr\",\"45\"".toList) labM labA labP
      = some (0, 45, 0)
    ∧ extract_temp_values
        ("+QTEMP:\"modem-ambient-usr\",\"0\"\r\n+QTEMP:\"cpuss-0-usr\",\"45\"".toList)
        labM labA labP
      = some (0, 45, 0) := by
  decide

/-- Witness for C3 at a concrete presence subset: modem 30 present, ap
absent (reported 0), pa -5 present. -/
theorem C3_field_tolerance_witness :
    extract_temp_values (buildResp (some 30) none (some (-5))) labM labA labP
      = some (30, 0, -5) :=
  C3_field_tolerance (some 30) none (some (-5))
    (by intro k hk
        rw [Option.mem_some_iff] at hk
        subst hk
        exact ⟨by decide, by decide⟩)
    (by intro k hk
        exact absurd hk (by simp))
    (by intro k hk
        rw [Option.mem_some_iff] at hk
        subst hk
        exact ⟨by decide, by decide⟩)


end QuectelRM520N
